import Mathlib

/-
Verification development for the bdcw goal/habit-tracking backend.

The definitions below are a shallow embedding of the batch-import views
(core/views.py BatchUserCreateView.post, categories/views.py
BatchCategoryCreateView.post, goals/views.py BatchGoalCreateView.post),
the per-item validators (core/validators.py), the batch serializers
(core/serializers.py, categories/serializers.py, goals/serializers.py),
the analytics raw-SQL leaderboard queries (analytics/views.py), the token
authentication and audit middleware (bdcw/authentication.py,
audit/middleware.py, bdcw/settings.py), and the audit-trigger behaviour
(audit/models.py plus the trigger installed by
audit/migrations/0002_create_audit_triggers.py).

Database interaction is modelled by an explicit database snapshot value
(`Db`) that is read at the points where the Python code issues queries,
and by an `oracle : Nat → Bool` that decides, per chunk index, whether the
chunk's `bulk_create` raises `IntegrityError` (which in the real system can
only be caused by the environment, e.g. a concurrent writer).  Machine-level
trigger and session state is modelled by explicit event traces.
-/

namespace Bdcw

/-- Dynamic JSON-like values appearing in request item dictionaries. -/
inductive JVal where
  | jint (i : Int)
  | jstr (s : String)
  | jbool (b : Bool)
  | jnull
deriving DecidableEq, Repr

/-- Error `type` tags used in the `errors` entries of the operation log
(`validation_error`, `duplicate_error`, `reference_error`,
`integrity_error`, `creation_error`, `critical`). -/
inductive ErrType where
  | validation
  | duplicate
  | reference
  | integrity
  | creation
  | critical
deriving DecidableEq, Repr

/-- One entry of the operation log's `errors` list: the index of the request
item it concerns (when the code records a per-item error) and its type tag. -/
structure BError where
  idx : Option Nat
  etype : ErrType
deriving DecidableEq, Repr

/-- Observable database-side events of a batch-import run.  `bulkUpdate` is
part of the alphabet so that claims about updates can be stated; whether the
code ever emits it is a theorem, not an assumption. -/
inductive Event where
  | disableTrigger
  | bulkCreate (ok : Bool)
  | bulkUpdate
  | enableTrigger
deriving DecidableEq, Repr

/-- Snapshot of the relevant database contents, read wherever the Python
code issues a query.  `nextId` is the id sequence value used by
`bulk_create` to assign ids to newly inserted rows. -/
structure Db where
  usernames : List String := []
  userIds : List Int := []
  categoryIds : List Int := []
  categoryNames : List String := []
  goalKeys : List (Int × String) := []
  nextId : Nat := 1
deriving Repr

/-- Chunking helper with explicit fuel; `chunkList` instantiates the fuel
with the list length, which suffices for any positive batch size. -/
def chunkGo (bs : Nat) : List α → Nat → List (List α)
  | [], _ => []
  | _ :: _, 0 => []
  | l, Nat.succ fuel => l.take bs :: chunkGo bs (l.drop bs) fuel

/-- Embeds the chunking comprehension
`[xs[i:i+batch_size] for i in range(0, len(xs), batch_size)]`. -/
def chunkList (l : List α) (bs : Nat) : List (List α) :=
  chunkGo bs l l.length

/-- Embeds `USERNAME_PATTERN`'s character class `[a-zA-Z0-9_]`
(core/validators.py). -/
def isUsernameChar (c : Char) : Bool :=
  ('a' ≤ c && c ≤ 'z') || ('A' ≤ c && c ≤ 'Z') || ('0' ≤ c && c ≤ '9') || c == '_'

/-- Embeds `USERNAME_PATTERN.match(username)` for `^[a-zA-Z0-9_]+$`. -/
def usernamePatternOk (s : String) : Bool :=
  s.length > 0 && s.toList.all isUsernameChar

/-- Embeds a `.*X` scan of a Python regex lookahead: succeeds when a
character satisfying `p` occurs after a (possibly empty) run of
non-newline characters. -/
def reDotStarFind (p : Char → Bool) : List Char → Bool
  | [] => false
  | c :: rest => p c || (c != '\n' && reDotStarFind p rest)

/-- Embeds `PASSWORD_PATTERN.match(password)` for
`^(?=.*[a-z])(?=.*[A-Z])(?=.*\d)` (core/validators.py). -/
def passwordPatternOk (s : String) : Bool :=
  reDotStarFind (fun c => 'a' ≤ c && c ≤ 'z') s.toList &&
  reDotStarFind (fun c => 'A' ≤ c && c ≤ 'Z') s.toList &&
  reDotStarFind (fun c => c.isDigit) s.toList

/-- One element of the `users` list of a batch request; `none` models an
absent dictionary key (`username` is read with `.get('username', '')`). -/
structure UserItem where
  username : Option String := none
  password : Option String := none
  confirm_password : Option String := none
  first_name : Option String := none
  last_name : Option String := none
  role : Option String := none
  description : Option String := none
  is_public : Option Bool := none
  is_active : Option Bool := none
deriving DecidableEq, Repr

/-- Reasons the per-item validation loop of `BatchUserCreateView.post`
rejects an item; all of them are reported with type `validation_error`. -/
inductive UserVErr where
  | dupInRequest
  | tooShort
  | badChars
  | alreadyExists
  | missingField
  | passwordMismatch
  | passwordTooShort
  | passwordPattern
deriving DecidableEq, Repr

/-- Embeds the body of the per-item validation loop of
`BatchUserCreateView.post` (core/views.py lines 1008-1050), including the
calls to `validate_username` and `validate_password`
(core/validators.py): duplicate-in-request check, username syntax and
database-existence checks, required-field presence, and password checks,
in source order.  Returns the updated `usernames_in_request` set and the
rejection reason, if any. -/
def processUserItem (dbUsernames : List String) (seen : List String) (it : UserItem) :
    List String × Option UserVErr :=
  let username := it.username.getD ""
  if seen.contains username then (seen, some UserVErr.dupInRequest)
  else
    let seen1 := username :: seen
    if username.length < 3 then (seen1, some UserVErr.tooShort)
    else if !(usernamePatternOk username) then (seen1, some UserVErr.badChars)
    else if dbUsernames.contains username then (seen1, some UserVErr.alreadyExists)
    else if it.password.isNone || it.confirm_password.isNone || it.first_name.isNone
        || it.last_name.isNone || it.role.isNone then (seen1, some UserVErr.missingField)
    else if it.password ≠ it.confirm_password then (seen1, some UserVErr.passwordMismatch)
    else if (it.password.getD "").length < 5 then (seen1, some UserVErr.passwordTooShort)
    else if !(passwordPatternOk (it.password.getD "")) then (seen1, some UserVErr.passwordPattern)
    else (seen1, none)

/-- Folds `processUserItem` over the request items, threading the
in-request username set, and returns the per-item outcome list (parallel
to the item list). -/
def validateUsersGo (dbU : List String) : List String → List UserItem → List (Option UserVErr)
  | _, [] => []
  | seen, it :: rest =>
    let p := processUserItem dbU seen it
    p.2 :: validateUsersGo dbU p.1 rest

/-- Per-item outcomes of the user validation loop against the database
snapshot `db`. -/
def validateUsers (db : Db) (items : List UserItem) : List (Option UserVErr) :=
  validateUsersGo db.usernames [] items

/-- The uniqueness key of a user item: its `username` (empty when absent). -/
def userKey (it : UserItem) : String := it.username.getD ""

/-- Items surviving per-item validation, with their request indices
(embeds the `validated_*_data` lists of the batch views). -/
def acceptedIdx (outcomes : List (Option ε)) (items : List ι) : List (Nat × ι) :=
  (items.zip outcomes).enum.filterMap fun p =>
    match p.2.2 with
    | none => some (p.1, p.2.1)
    | some _ => none

/-- The `validation_error` entries produced by a per-item validation loop,
one per rejected item, in request order. -/
def validationErrors (outcomes : List (Option ε)) : List BError :=
  outcomes.enum.filterMap fun p =>
    match p.2 with
    | some _ => some { idx := some p.1, etype := ErrType.validation }
    | none => none

/-- Aggregate result of the per-chunk loop of a batch view. -/
structure ChunkOut where
  successful : Nat
  createdIds : List Nat
  errors : List BError
  batchesProcessed : Nat
  trace : List Event
  aborted : Bool
deriving Repr

/-- Embeds the `for batch_index, batch in enumerate(batches)` loop shared
by the batch views: per chunk, the audit trigger is disabled, the chunk's
objects are bulk-created inside `transaction.atomic()` (guarded by
`if objects_to_create:`), and the trigger is re-enabled in a `finally`
block.  `oracle idx` decides whether the chunk's `bulk_create` raises
`IntegrityError`; the view re-raises it, so processing stops after the
`finally` re-enable and the outer handler takes over (`aborted`). -/
def processChunks (oracle : Nat → Bool) : Nat → Nat → List (List α) → ChunkOut
  | _, _, [] =>
    { successful := 0, createdIds := [], errors := [], batchesProcessed := 0,
      trace := [], aborted := false }
  | idx, nextId, c :: rest =>
    if c.isEmpty then
      let r := processChunks oracle (idx + 1) nextId rest
      { r with batchesProcessed := r.batchesProcessed + 1,
               trace := Event.disableTrigger :: Event.enableTrigger :: r.trace }
    else if oracle idx then
      { successful := 0, createdIds := [],
        errors := [{ idx := none, etype := ErrType.integrity }],
        batchesProcessed := 0,
        trace := [Event.disableTrigger, Event.bulkCreate false, Event.enableTrigger],
        aborted := true }
    else
      let r := processChunks oracle (idx + 1) (nextId + c.length) rest
      { successful := c.length + r.successful,
        createdIds := (List.range c.length).map (nextId + ·) ++ r.createdIds,
        errors := r.errors,
        batchesProcessed := r.batchesProcessed + 1,
        trace := Event.disableTrigger :: Event.bulkCreate true :: Event.enableTrigger :: r.trace,
        aborted := r.aborted }

/-- The response body of a batch view (`BatchOperationLogSerializer`
fields, operation_log in the code). -/
structure OperationLog where
  total_processed : Nat
  successful : Nat
  failed : Nat
  errors : List BError
  created_ids : List Nat
  batches_processed : Nat
  batch_size : Nat
deriving DecidableEq, Repr

/-- Outcome of a batch view: an HTTP 400 from serializer validation, or a
200 response carrying the operation log, together with the trace of
database trigger/bulk-write events the request performed. -/
inductive BatchOutcome where
  | bad400
  | ok (log : OperationLog) (trace : List Event)
deriving DecidableEq, Repr

/-- Builds the final operation log from the pre-chunk failures and the
chunk-loop result, embedding the outer `except Exception` handler: when a
chunk aborted, a `critical` error is appended and `failed` is recomputed
as `total_processed - successful`. -/
def finishLog (total bs : Nat) (preErrors : List BError) (preFailed : Nat)
    (co : ChunkOut) : OperationLog :=
  if co.aborted then
    { total_processed := total, successful := co.successful,
      failed := total - co.successful,
      errors := preErrors ++ co.errors ++ [{ idx := none, etype := ErrType.critical }],
      created_ids := co.createdIds,
      batches_processed := co.batchesProcessed, batch_size := bs }
  else
    { total_processed := total, successful := co.successful,
      failed := preFailed,
      errors := preErrors ++ co.errors,
      created_ids := co.createdIds,
      batches_processed := co.batchesProcessed, batch_size := bs }

/-- The `duplicate_error` entries of the user batch view: validated items
whose username already exists in the database (core/views.py lines
1063-1076).  Dead in effect, since `validate_username` already rejected
such items, but embedded faithfully. -/
def userDupErrors (db : Db) (acc : List (Nat × UserItem)) : List BError :=
  acc.filterMap fun p =>
    if db.usernames.contains (userKey p.2) then
      some { idx := some p.1, etype := ErrType.duplicate }
    else none

/-- The `filtered_users` list of the user batch view: validated items not
filtered out as database duplicates, with request indices. -/
def userSurvivors (db : Db) (items : List UserItem) : List (Nat × UserItem) :=
  (acceptedIdx (validateUsers db items) items).filter
    fun p => !(db.usernames.contains (userKey p.2))

/-- Embeds `BatchUserCreateView.post` after serializer validation:
per-item validation, database duplicate filtering with its two early
returns, chunking, the chunk loop, and the outer critical handler. -/
def runUsersValidated (db : Db) (oracle : Nat → Bool) (items : List UserItem) (bs : Nat) :
    OperationLog × List Event :=
  let outcomes := validateUsers db items
  let vErrs := validationErrors outcomes
  let acc := acceptedIdx outcomes items
  if acc.isEmpty then
    ({ total_processed := items.length, successful := 0, failed := vErrs.length,
       errors := vErrs, created_ids := [], batches_processed := 0, batch_size := bs }, [])
  else
    let dErrs := userDupErrors db acc
    let survivors := userSurvivors db items
    if survivors.isEmpty then
      ({ total_processed := items.length, successful := 0,
         failed := vErrs.length + dErrs.length,
         errors := vErrs ++ dErrs, created_ids := [], batches_processed := 0,
         batch_size := bs }, [])
    else
      let co := processChunks oracle 0 db.nextId (chunkList survivors bs)
      (finishLog items.length bs (vErrs ++ dErrs) (vErrs.length + dErrs.length) co, co.trace)

/-- Embeds the `batch_size` field of the batch serializers:
`IntegerField(required=False, default=100, min_value=1, max_value=5000)`. -/
def effBatchSize (b : Option Int) : Option Nat :=
  match b with
  | none => some 100
  | some v => if v < 1 || v > 5000 then none else some v.toNat

/-- Decidable equality for `Except` results, used to evaluate concrete
validation outcomes. -/
instance exceptDecEq [DecidableEq ε] [DecidableEq γ] : DecidableEq (Except ε γ) :=
  fun a b =>
    match a, b with
    | Except.error x, Except.error y =>
      match decEq x y with
      | isTrue h => isTrue (by rw [h])
      | isFalse h => isFalse (by intro hc; cases hc; exact h rfl)
    | Except.error _, Except.ok _ => isFalse (by intro hc; cases hc)
    | Except.ok _, Except.error _ => isFalse (by intro hc; cases hc)
    | Except.ok x, Except.ok y =>
      match decEq x y with
      | isTrue h => isTrue (by rw [h])
      | isFalse h => isFalse (by intro hc; cases hc; exact h rfl)

/-- Whitespace for the purposes of Python's `str.strip()` and the
whitespace tolerance of `int()`/`Decimal()` (ASCII subset of Python's
unicode whitespace, which the modelled request space uses). -/
def pySpace (c : Char) : Bool :=
  c == ' ' || c == '\t' || c == '\n' || c == '\r'

/-- Strips leading and trailing whitespace from a character list. -/
def trimChars (l : List Char) : List Char :=
  ((l.dropWhile pySpace).reverse.dropWhile pySpace).reverse

/-- Embeds Python `str.strip()`. -/
def pyStrip (s : String) : String :=
  String.mk (trimChars s.data)

/-- Splits a character list on a separator character, keeping empty
segments (the behaviour of `str.split(sep)` for a one-character
separator). -/
def splitOnChar (sep : Char) : List Char → List (List Char)
  | [] => [[]]
  | c :: rest =>
    let r := splitOnChar sep rest
    if c == sep then [] :: r
    else
      match r with
      | [] => [[c]]
      | h :: t => (c :: h) :: t

/-- Numeric value of a digit string. -/
def digitsToNat (l : List Char) : Nat :=
  l.foldl (fun acc c => acc * 10 + (c.toNat - '0'.toNat)) 0

/-- Embeds Python `int(s)` on a string: surrounding whitespace, an
optional sign, then a non-empty digit run. -/
def pyStrToInt (s : String) : Option Int :=
  match trimChars s.data with
  | '+' :: r =>
    if !r.isEmpty && r.all Char.isDigit then some (Int.ofNat (digitsToNat r)) else none
  | '-' :: r =>
    if !r.isEmpty && r.all Char.isDigit then some (-(Int.ofNat (digitsToNat r))) else none
  | r =>
    if !r.isEmpty && r.all Char.isDigit then some (Int.ofNat (digitsToNat r)) else none

/-- One element of the `categories` list of a batch request
(categories/views.py `BatchCategoryCreateView.post`). -/
structure CatItem where
  name : Option JVal := none
  description : Option JVal := none
deriving DecidableEq, Repr

/-- Reasons the per-item validation loop of `BatchCategoryCreateView.post`
rejects an item; all are reported with type `validation_error`.
`nameNotString` embeds the `AttributeError` raised by
`category_data.get('name', '').strip()` on a non-string value. -/
inductive CatVErr where
  | nameNotString
  | emptyName
  | dupInRequest
  | descriptionType
deriving DecidableEq, Repr

/-- Embeds the body of the per-item validation loop of
`BatchCategoryCreateView.post` (categories/views.py lines 492-528):
`.strip()` of the name, non-emptiness, duplicate-in-request check,
registration in `names_in_request`, then the description type check. -/
def processCatItem (seen : List String) (it : CatItem) :
    List String × Option CatVErr :=
  match it.name.getD (JVal.jstr "") with
  | JVal.jstr s =>
    let name := pyStrip s
    if name = "" then (seen, some CatVErr.emptyName)
    else if seen.contains name then (seen, some CatVErr.dupInRequest)
    else
      let seen1 := name :: seen
      match it.description with
      | none => (seen1, none)
      | some JVal.jnull => (seen1, none)
      | some (JVal.jstr _) => (seen1, none)
      | some _ => (seen1, some CatVErr.descriptionType)
  | _ => (seen, some CatVErr.nameNotString)

/-- Folds `processCatItem` over the request items, threading
`names_in_request`. -/
def validateCatsGo : List String → List CatItem → List (Option CatVErr)
  | _, [] => []
  | seen, it :: rest =>
    let p := processCatItem seen it
    p.2 :: validateCatsGo p.1 rest

/-- Per-item outcomes of the category validation loop. -/
def validateCats (items : List CatItem) : List (Option CatVErr) :=
  validateCatsGo [] items

/-- The uniqueness key of a category item: its stripped string name
(empty when the name is absent or not a string). -/
def catKey (it : CatItem) : String :=
  match it.name.getD (JVal.jstr "") with
  | JVal.jstr s => pyStrip s
  | _ => ""

/-- The `duplicate_error` entries of the category batch view: validated
items whose name already exists in the database. -/
def catDupErrors (db : Db) (acc : List (Nat × CatItem)) : List BError :=
  acc.filterMap fun p =>
    if db.categoryNames.contains (catKey p.2) then
      some { idx := some p.1, etype := ErrType.duplicate }
    else none

/-- The `filtered_categories` list of the category batch view. -/
def catSurvivors (db : Db) (items : List CatItem) : List (Nat × CatItem) :=
  (acceptedIdx (validateCats items) items).filter
    fun p => !(db.categoryNames.contains (catKey p.2))

/-- Embeds `BatchCategoryCreateView.post` after serializer validation
(categories/views.py lines 488-639). -/
def runCatsValidated (db : Db) (oracle : Nat → Bool) (items : List CatItem) (bs : Nat) :
    OperationLog × List Event :=
  let outcomes := validateCats items
  let vErrs := validationErrors outcomes
  let acc := acceptedIdx outcomes items
  if acc.isEmpty then
    ({ total_processed := items.length, successful := 0, failed := vErrs.length,
       errors := vErrs, created_ids := [], batches_processed := 0, batch_size := bs }, [])
  else
    let dErrs := catDupErrors db acc
    let survivors := catSurvivors db items
    if survivors.isEmpty then
      ({ total_processed := items.length, successful := 0,
         failed := vErrs.length + dErrs.length,
         errors := vErrs ++ dErrs, created_ids := [], batches_processed := 0,
         batch_size := bs }, [])
    else
      let co := processChunks oracle 0 db.nextId (chunkList survivors bs)
      (finishLog items.length bs (vErrs ++ dErrs) (vErrs.length + dErrs.length) co, co.trace)

/-- A category batch request body. -/
structure CatBatchRequest where
  categories : Option (List CatItem) := none
  batch_size : Option Int := none

/-- Embeds `BatchCategoryCreateView.post` (categories/views.py lines
464-639), including `BatchCategoryCreateSerializer` validation. -/
def runBatchCats (db : Db) (oracle : Nat → Bool) (req : CatBatchRequest) : BatchOutcome :=
  match req.categories, effBatchSize req.batch_size with
  | some items, some bs =>
    if items.isEmpty || items.length > 10000 then BatchOutcome.bad400
    else
      let p := runCatsValidated db oracle items bs
      BatchOutcome.ok p.1 p.2
  | _, _ => BatchOutcome.bad400

/-- One element of the `goals` list of a batch request
(goals/views.py `BatchGoalCreateView.post`). -/
structure GoalItem where
  user_id : Option JVal := none
  title : Option JVal := none
  target_value : Option JVal := none
  deadline : Option JVal := none
  category_id : Option JVal := none
  is_completed : Option JVal := none
  is_public : Option JVal := none
  description : Option JVal := none
deriving DecidableEq, Repr

/-- Reasons the per-item validation loop of `BatchGoalCreateView.post`
rejects an item; all are reported with type `validation_error`.  In
particular `userMissing` and `categoryMissing` embed the in-loop
existence checks `processed_data['user_id'] not in user_ids` and
`processed_data['category_id'] not in category_ids` (goals/views.py lines
1358-1362), which are part of validation, not of the later
`reference_error` pass. -/
inductive GoalVErr where
  | missingFields
  | titleNotString
  | titleEmpty
  | userIdType
  | categoryIdType
  | dupInRequest
  | userMissing
  | categoryMissing
  | targetValueBad
  | deadlineBad
  | isCompletedType
  | isPublicType
  | descriptionType
deriving DecidableEq, Repr

/-- Embeds Python `int(value)` on the values a goal id field can hold:
an `int` stays itself, a `bool` passes `isinstance(_, int)` (bool is a
subclass of int) with value 1 or 0, a string is parsed, anything else is
a type error. -/
def pyInt : JVal → Option Int
  | JVal.jint i => some i
  | JVal.jbool b => some (if b then 1 else 0)
  | JVal.jstr s => pyStrToInt s
  | JVal.jnull => none

/-- Embeds the f-string rendering of a processed id value: a `bool` that
slipped through `isinstance(_, int)` renders as `True`/`False`, ints as
decimal. -/
def pyIntStr (orig : JVal) (v : Int) : String :=
  match orig with
  | JVal.jbool b => if b then "True" else "False"
  | _ => toString v

/-- Embeds acceptance of `Decimal(str(value))` on the modelled value
space: plain decimal literals with optional sign and fractional part
(Python's `Decimal` also accepts exponents and special values, which the
modelled request space does not use). -/
def decStrOk (s : String) : Bool :=
  let t := trimChars s.data
  let t1 := match t with
    | '+' :: r => r
    | '-' :: r => r
    | r => r
  match splitOnChar '.' t1 with
  | [a] => !a.isEmpty && a.all Char.isDigit
  | [a, b] => (!a.isEmpty || !b.isEmpty) && a.all Char.isDigit && b.all Char.isDigit
  | _ => false

/-- Leap-year rule used by `datetime.strptime` date validation. -/
def isLeap (y : Nat) : Bool :=
  y % 4 == 0 && (y % 100 != 0 || y % 400 == 0)

/-- Number of days of month `m` in year `y`. -/
def daysInMonth (y m : Nat) : Nat :=
  if m == 2 then (if isLeap y then 29 else 28)
  else if m == 4 || m == 6 || m == 9 || m == 11 then 30
  else 31

/-- Embeds success of `datetime.strptime(s, '%Y-%m-%d')`: a four-digit
year, one- or two-digit month and day, and a calendar-valid day. -/
def dateOk (s : String) : Bool :=
  match splitOnChar '-' s.data with
  | [y, m, d] =>
    y.length == 4 && y.all Char.isDigit &&
    (m.length == 1 || m.length == 2) && m.all Char.isDigit &&
    (d.length == 1 || d.length == 2) && d.all Char.isDigit &&
    (let yn := digitsToNat y
     let mn := digitsToNat m
     let dn := digitsToNat d
     1 ≤ mn && mn ≤ 12 && 1 ≤ dn && dn ≤ daysInMonth yn mn)
  | _ => false

/-- The processed form of a goal item that passed validation: parsed user
and category ids, stripped title, and the `f"{user_id}:{title}"`
combination string. -/
structure GoalProcessed where
  uid : Int
  cid : Int
  title : String
  combo : String
deriving DecidableEq, Repr

/-- The combination strings of the goals existing in the database,
`f"{goal.user_id}:{goal.title}"` (goals/views.py lines 1441-1443). -/
def dbGoalCombos (db : Db) : List String :=
  db.goalKeys.map fun k => toString k.1 ++ ":" ++ k.2

/-- Embeds the checks of the goal validation loop that precede the
registration in `seen_combinations` (goals/views.py lines 1313-1352), in
source order: required-field presence, title type and non-emptiness, id
parsing, and the `f"{user_id}:{title}"` combination string. -/
def goalPreKey (it : GoalItem) : Except GoalVErr GoalProcessed :=
  if it.user_id.isNone || it.title.isNone || it.target_value.isNone
      || it.deadline.isNone || it.category_id.isNone then
    Except.error GoalVErr.missingFields
  else
    match it.title.getD JVal.jnull with
    | JVal.jstr rawTitle =>
      let title := pyStrip rawTitle
      if title = "" then Except.error GoalVErr.titleEmpty
      else
        match pyInt (it.user_id.getD JVal.jnull) with
        | none => Except.error GoalVErr.userIdType
        | some uid =>
          match pyInt (it.category_id.getD JVal.jnull) with
          | none => Except.error GoalVErr.categoryIdType
          | some cid =>
            Except.ok ⟨uid, cid, title,
              pyIntStr (it.user_id.getD JVal.jnull) uid ++ ":" ++ title⟩
    | _ => Except.error GoalVErr.titleNotString

/-- Embeds the checks of the goal validation loop that follow the
registration in `seen_combinations` (goals/views.py lines 1358-1396):
database existence of the referenced user and category, target value,
deadline, and the boolean/description field checks, in source order. -/
def goalPostKey (db : Db) (it : GoalItem) (pre : GoalProcessed) :
    Except GoalVErr GoalProcessed :=
  if !(db.userIds.contains pre.uid) then Except.error GoalVErr.userMissing
  else if !(db.categoryIds.contains pre.cid) then Except.error GoalVErr.categoryMissing
  else
    let tvOk := match it.target_value.getD JVal.jnull with
      | JVal.jint _ => true
      | JVal.jstr s => decStrOk s
      | _ => false
    if !tvOk then Except.error GoalVErr.targetValueBad
    else
      let dlOk := match it.deadline.getD JVal.jnull with
        | JVal.jstr s => dateOk s
        | _ => false
      if !dlOk then Except.error GoalVErr.deadlineBad
      else
        let icOk := match it.is_completed with
          | none => true
          | some (JVal.jbool _) => true
          | some _ => false
        if !icOk then Except.error GoalVErr.isCompletedType
        else
          let ipOk := match it.is_public with
            | none => true
            | some (JVal.jbool _) => true
            | some _ => false
          if !ipOk then Except.error GoalVErr.isPublicType
          else
            let descOk := match it.description with
              | none => true
              | some JVal.jnull => true
              | some (JVal.jstr _) => true
              | some _ => false
            if !descOk then Except.error GoalVErr.descriptionType
            else Except.ok pre

/-- Embeds the body of the per-item validation loop of
`BatchGoalCreateView.post` (goals/views.py lines 1309-1418) in source
order: the pre-registration checks (`goalPreKey`), the
duplicate-in-request check with the registration in
`seen_combinations`, then the remaining checks (`goalPostKey`). -/
def processGoalItem (db : Db) (seen : List String) (it : GoalItem) :
    List String × Except GoalVErr GoalProcessed :=
  match goalPreKey it with
  | Except.error e => (seen, Except.error e)
  | Except.ok pre =>
    if seen.contains pre.combo then (seen, Except.error GoalVErr.dupInRequest)
    else (pre.combo :: seen, goalPostKey db it pre)

/-- Folds `processGoalItem` over the request items, threading
`seen_combinations`; one `Except` result per item, in request order. -/
def validateGoalsGo (db : Db) :
    List String → List GoalItem → List (Except GoalVErr GoalProcessed)
  | _, [] => []
  | seen, it :: rest =>
    let p := processGoalItem db seen it
    p.2 :: validateGoalsGo db p.1 rest

/-- The rejection reason of an `Except` result, if any. -/
def exceptErr : Except ε γ → Option ε
  | Except.error e => some e
  | Except.ok _ => none

/-- Whether an `Except` result is a success. -/
def exceptOk : Except ε γ → Bool
  | Except.error _ => false
  | Except.ok _ => true

/-- Per-item outcomes of the goal validation loop. -/
def goalOutcomes (db : Db) (items : List GoalItem) : List (Option GoalVErr) :=
  (validateGoalsGo db [] items).map exceptErr

/-- The `validated_goals_data` list: indices and processed data of the
items that passed validation. -/
def goalAccepted (db : Db) (items : List GoalItem) : List (Nat × GoalProcessed) :=
  (validateGoalsGo db [] items).enum.filterMap fun p =>
    match p.2 with
    | Except.ok g => some (p.1, g)
    | Except.error _ => none

/-- The `duplicate_error` entries of the goal batch view: validated items
whose `f"{user_id}:{title}"` combination matches an existing goal. -/
def goalDupErrors (db : Db) (acc : List (Nat × GoalProcessed)) : List BError :=
  acc.filterMap fun p =>
    if (dbGoalCombos db).contains p.2.combo then
      some { idx := some p.1, etype := ErrType.duplicate }
    else none

/-- The `filtered_goals` list after database-duplicate filtering. -/
def goalSurvivors (db : Db) (items : List GoalItem) : List (Nat × GoalProcessed) :=
  (goalAccepted db items).filter fun p => !((dbGoalCombos db).contains p.2.combo)

/-- The `filtered_goals` list after the missing-user reference pass. -/
def goalFil2 (db : Db) (items : List GoalItem) : List (Nat × GoalProcessed) :=
  (goalSurvivors db items).filter fun p => db.userIds.contains p.2.uid

/-- The `filtered_goals` list after both reference passes; this is the
list that gets chunked and bulk-created. -/
def goalFil3 (db : Db) (items : List GoalItem) : List (Nat × GoalProcessed) :=
  (goalFil2 db items).filter fun p => db.categoryIds.contains p.2.cid

/-- The `reference_error` entries for missing users (goals/views.py lines
1477-1490): items of `filtered_goals` whose `user_id` is not a key of
`users_dict`. -/
def goalRefUserErrors (db : Db) (fil : List (Nat × GoalProcessed)) : List BError :=
  fil.filterMap fun p =>
    if !(db.userIds.contains p.2.uid) then
      some { idx := some p.1, etype := ErrType.reference }
    else none

/-- The `reference_error` entries for missing categories (goals/views.py
lines 1492-1505), computed on the list already filtered by user
existence. -/
def goalRefCatErrors (db : Db) (fil : List (Nat × GoalProcessed)) : List BError :=
  fil.filterMap fun p =>
    if !(db.categoryIds.contains p.2.cid) then
      some { idx := some p.1, etype := ErrType.reference }
    else none

/-- Embeds `BatchGoalCreateView.post` after serializer validation
(goals/views.py lines 1292-1612): validation loop, database-duplicate
filtering, the two reference-error passes, chunking, the chunk loop and
the outer critical handler, with the early returns in source order. -/
def runGoalsValidated (db : Db) (oracle : Nat → Bool) (items : List GoalItem) (bs : Nat) :
    OperationLog × List Event :=
  let outcomes := goalOutcomes db items
  let vErrs := validationErrors outcomes
  let acc := goalAccepted db items
  if acc.isEmpty then
    ({ total_processed := items.length, successful := 0, failed := vErrs.length,
       errors := vErrs, created_ids := [], batches_processed := 0, batch_size := bs }, [])
  else
    let dErrs := goalDupErrors db acc
    let fil1 := goalSurvivors db items
    if fil1.isEmpty then
      ({ total_processed := items.length, successful := 0,
         failed := vErrs.length + dErrs.length,
         errors := vErrs ++ dErrs, created_ids := [], batches_processed := 0,
         batch_size := bs }, [])
    else
      let ruErrs := goalRefUserErrors db fil1
      let rcErrs := goalRefCatErrors db (goalFil2 db items)
      let fil3 := goalFil3 db items
      if fil3.isEmpty then
        ({ total_processed := items.length, successful := 0,
           failed := vErrs.length + dErrs.length + ruErrs.length + rcErrs.length,
           errors := vErrs ++ dErrs ++ ruErrs ++ rcErrs, created_ids := [],
           batches_processed := 0, batch_size := bs }, [])
      else
        let co := processChunks oracle 0 db.nextId (chunkList fil3 bs)
        (finishLog items.length bs (vErrs ++ dErrs ++ ruErrs ++ rcErrs)
          (vErrs.length + dErrs.length + ruErrs.length + rcErrs.length) co, co.trace)

/-- A goal batch request body. -/
structure GoalBatchRequest where
  goals : Option (List GoalItem) := none
  batch_size : Option Int := none

/-- Embeds `BatchGoalCreateView.post` (goals/views.py lines 1278-1612),
including `BatchGoalCreateSerializer` validation. -/
def runBatchGoals (db : Db) (oracle : Nat → Bool) (req : GoalBatchRequest) : BatchOutcome :=
  match req.goals, effBatchSize req.batch_size with
  | some items, some bs =>
    if items.isEmpty || items.length > 10000 then BatchOutcome.bad400
    else
      let p := runGoalsValidated db oracle items bs
      BatchOutcome.ok p.1 p.2
  | _, _ => BatchOutcome.bad400

/-- A user batch request body: the `users` list (absent when the key is
missing) and the optional `batch_size`. -/
structure UserBatchRequest where
  users : Option (List UserItem) := none
  batch_size : Option Int := none

/-- Row of the `user_progress_analytics` view as consumed by
`GetUsersByCompletedGoalsView.get` (analytics/views.py): the id column
and the two ranking-key columns (`avg_goal_progress` scaled to an
integer; only its ordering matters here). -/
structure UserAnalyticsRow where
  id : Nat
  completed_goals : Nat
  avg_goal_progress : Nat
deriving DecidableEq, Repr

/-- Row of the `challenge_basic_analytics` view as consumed by
`GetChallengesByPopularityView.get` (analytics/views.py): the id column
and the two columns of the `ROW_NUMBER()` ordering key. -/
structure ChallengeAnalyticsRow where
  id : Nat
  participants_count : Nat
  goals_count : Nat
deriving DecidableEq, Repr

/-- Descending order induced by a key function: `a` sorts before `b` when
`key b ≤ key a`. -/
def keyOrd (key : α → K) [LinearOrder K] : α → α → Prop :=
  fun a b => key b ≤ key a

instance keyOrdTotal (key : α → K) [LinearOrder K] : IsTotal α (keyOrd key) :=
  ⟨fun a b => le_total (key b) (key a)⟩

instance keyOrdTrans (key : α → K) [LinearOrder K] : IsTrans α (keyOrd key) :=
  ⟨fun _ _ _ h1 h2 => le_trans h2 h1⟩

instance keyOrdDecidable (key : α → K) [LinearOrder K] : DecidableRel (keyOrd key) :=
  fun a b => inferInstanceAs (Decidable (key b ≤ key a))

/-- Pairs each element with its 1-based position starting at `n`
(the `ROW_NUMBER()` assignment over an ordered row set). -/
def rankFrom (n : Nat) : List α → List (α × Nat)
  | [] => []
  | x :: xs => (x, n) :: rankFrom (n + 1) xs

/-- Embeds `ROW_NUMBER() OVER (ORDER BY key DESC)`: the rows sorted
descending by `key` (stably) and paired with their 1-based row numbers. -/
def rankedRows (key : α → K) [LinearOrder K] (table : List α) : List (α × Nat) :=
  rankFrom 1 (List.insertionSort (keyOrd key) table)

/-- The `ROW_NUMBER()` ordering key of `GetChallengesByPopularityView`:
`ORDER BY participants_count DESC, goals_count DESC`. -/
def chKey (r : ChallengeAnalyticsRow) : Lex (Nat × Nat) :=
  toLex (r.participants_count, r.goals_count)

/-- The ranked row set of the challenges-by-popularity query. -/
def challengeRanked (table : List ChallengeAnalyticsRow) :
    List (ChallengeAnalyticsRow × Nat) :=
  rankedRows chKey table

/-- A result list the challenges-by-popularity query may return: a
permutation of the ranked rows whose order satisfies the outer
`ORDER BY participants_count DESC` (and nothing more — SQL leaves the
order of rows tied on the outer key unspecified). -/
def challengePopularityValid (table : List ChallengeAnalyticsRow)
    (out : List (ChallengeAnalyticsRow × Nat)) : Prop :=
  out.Perm (challengeRanked table) ∧
  out.Pairwise fun a b => b.1.participants_count ≤ a.1.participants_count

/-- The `ROW_NUMBER()` ordering key of `GetUsersByCompletedGoalsView`:
`ORDER BY completed_goals DESC, avg_goal_progress DESC`, which is also
its outer `ORDER BY`. -/
def ucgKey (r : UserAnalyticsRow) : Lex (Nat × Nat) :=
  toLex (r.completed_goals, r.avg_goal_progress)

/-- The ranked row set of the users-by-completed-goals query. -/
def usersCompletedRanked (table : List UserAnalyticsRow) :
    List (UserAnalyticsRow × Nat) :=
  rankedRows ucgKey table

/-- A result list the users-by-completed-goals query may return: a
permutation of the ranked rows ordered by the outer
`ORDER BY completed_goals DESC, avg_goal_progress DESC`. -/
def usersCompletedValid (table : List UserAnalyticsRow)
    (out : List (UserAnalyticsRow × Nat)) : Prop :=
  out.Perm (usersCompletedRanked table) ∧
  out.Pairwise fun a b => ucgKey b.1 ≤ ucgKey a.1

/-- Holds when the i-th returned row carries rank i+1, i.e. rows appear
in rank order. -/
def rankOrdered (out : List (α × Nat)) : Prop :=
  ∀ i (h : i < out.length), (out.get ⟨i, h⟩).2 = i + 1

/-- The literal `MIDDLEWARE` list of bdcw/settings.py. -/
def settingsMiddlewareClasses : List String :=
  ["corsheaders.middleware.CorsMiddleware",
   "django.middleware.security.SecurityMiddleware",
   "django.contrib.sessions.middleware.SessionMiddleware",
   "django.middleware.common.CommonMiddleware",
   "django.middleware.csrf.CsrfViewMiddleware",
   "django.contrib.auth.middleware.AuthenticationMiddleware",
   "django.contrib.messages.middleware.MessageMiddleware",
   "django.middleware.clickjacking.XFrameOptionsMiddleware"]

/-- Whether `audit.middleware.AuditUserMiddleware` is registered in
`MIDDLEWARE` and thus runs on requests. -/
def auditMiddlewareInstalled : Bool :=
  settingsMiddlewareClasses.contains "audit.middleware.AuditUserMiddleware"

/-- PostgreSQL session-local state relevant to auditing: the value of the
`app.user_id` config variable (kept across requests on the same pooled
connection unless reset). -/
structure PgSession where
  appUserId : Option Nat := none
deriving DecidableEq, Repr

/-- Observable milestones of one request's processing. -/
inductive ReqEvent where
  | setConfig (uid : Nat)
  | viewHandler
  | resetVar
deriving DecidableEq, Repr

/-- The auth-token table: token key to user id (bdcw/authentication.py
looks tokens up by key only; activity and expiry are checked later by the
`HasValidToken` permission). -/
structure AuthDb where
  tokens : List (String × Nat) := []
deriving Repr

/-- Result of `TokenAuthentication.authenticate`. -/
inductive AuthResult where
  | anonymous
  | authenticated (uid : Nat)
  | failed
deriving DecidableEq, Repr

/-- Embeds `TokenAuthentication.authenticate` (bdcw/authentication.py
lines 50-72): an empty `Authorization` header yields anonymous access;
an existing token runs `SELECT set_config('app.user_id', uid, false)` on
the session and returns the token's user; an unknown token raises
`AuthenticationFailed`. -/
def authenticate (db : AuthDb) (authHeader : String) (s : PgSession) :
    PgSession × AuthResult × List ReqEvent :=
  if authHeader = "" then (s, AuthResult.anonymous, [])
  else
    match db.tokens.find? (fun t => t.1 == authHeader) with
    | some t =>
      ({ appUserId := some t.2 }, AuthResult.authenticated t.2, [ReqEvent.setConfig t.2])
    | none => (s, AuthResult.failed, [])

/-- Embeds one request through the stack configured by bdcw/settings.py:
DRF token authentication (which may set `app.user_id`), then the view
handler (skipped when authentication failed with 401), then — only if
`AuditUserMiddleware` is registered in `MIDDLEWARE` — the middleware's
`RESET app.user_id` after the response.  Returns the session state after
the request and the event trace. -/
def handleRequest (db : AuthDb) (authHeader : String) (s : PgSession) :
    PgSession × List ReqEvent :=
  let a := authenticate db authHeader s
  let evs := a.2.2 ++
    (match a.2.1 with
     | AuthResult.failed => []
     | _ => [ReqEvent.viewHandler])
  if auditMiddlewareInstalled then
    ({ appUserId := none }, evs ++ [ReqEvent.resetVar])
  else (a.1, evs)

/-- Kind of a row-level database operation. -/
inductive DbOpKind where
  | insertOp
  | updateOp
  | deleteOp
deriving DecidableEq, Repr

/-- A row-level operation on an audited table, with its serialized old
and new row values. -/
structure DbOp where
  table_name : String
  operation : DbOpKind
  old_values : Option String := none
  new_values : Option String := none
deriving DecidableEq, Repr

/-- A row of the `audit_logs` table (audit/models.py `AuditLog`): table
name, operation, old and new values, and the `changed_by` user. -/
structure AuditLogRow where
  table_name : String
  operation : DbOpKind
  old_values : Option String
  new_values : Option String
  changed_by : Option Nat
deriving DecidableEq, Repr

/-- Modelled from the spec: the audit trigger function body lives in
audit/sql/audit_triggers.sql, which is not under src/ (the migration
audit/migrations/0002_create_audit_triggers.py only loads that file).
Per the spec it is a "PostgreSQL trigger capturing INSERT/UPDATE/DELETE
into an `audit_logs` table, attributed to the session's `app.user_id`
config variable": the state is the audit log together with the per-table
trigger enablement and the session's `app.user_id`. -/
structure AuditedDb where
  logs : List AuditLogRow
  triggerEnabled : String → Bool
  appUserId : Option Nat

/-- Modelled from the spec: effect of one INSERT/UPDATE/DELETE on an
audited table — when the table's audit trigger is enabled, exactly one
`audit_logs` row is appended recording the table name, operation kind,
old and new values, and `changed_by` derived from `app.user_id`; when
the trigger is disabled, no row is appended. -/
def applyAuditedOp (db : AuditedDb) (op : DbOp) : AuditedDb :=
  if db.triggerEnabled op.table_name then
    { db with logs := db.logs ++
        [{ table_name := op.table_name, operation := op.operation,
           old_values := op.old_values, new_values := op.new_values,
           changed_by := db.appUserId }] }
  else db

/-- Embeds `BatchUserCreateView.post` (core/views.py lines 980-1172):
`BatchUserCreateSerializer` validation (the `users` list is required,
non-empty, at most 10000 items; `batch_size` within 1..5000 defaulting to
100) returning HTTP 400 on failure, then the validated-run body. -/
def runBatchUsers (db : Db) (oracle : Nat → Bool) (req : UserBatchRequest) : BatchOutcome :=
  match req.users, effBatchSize req.batch_size with
  | some items, some bs =>
    if items.isEmpty || items.length > 10000 then BatchOutcome.bad400
    else
      let p := runUsersValidated db oracle items bs
      BatchOutcome.ok p.1 p.2
  | _, _ => BatchOutcome.bad400

/-- Number of bulk-write calls in an event trace. -/
def countWrites : List Event → Nat
  | [] => 0
  | Event.bulkCreate _ :: r => countWrites r + 1
  | _ :: r => countWrites r

/-- Whether a trace consists of per-chunk blocks of the form
disable-trigger, optional bulk write, enable-trigger: every disable is
matched by an enable after the chunk's (possibly failing) bulk write, so
the trigger is never left disabled once a chunk finishes. -/
def wellBracketed : List Event → Bool
  | [] => true
  | Event.disableTrigger :: Event.enableTrigger :: rest => wellBracketed rest
  | Event.disableTrigger :: Event.bulkCreate _ :: Event.enableTrigger :: rest =>
      wellBracketed rest
  | _ => false

/-- The database event trace of a batch outcome (empty for an HTTP 400,
which performs no database work). -/
def traceOf : BatchOutcome → List Event
  | BatchOutcome.bad400 => []
  | BatchOutcome.ok _ t => t

/-- The operation log of a batch outcome, when one was produced. -/
def logOf : BatchOutcome → Option OperationLog
  | BatchOutcome.bad400 => none
  | BatchOutcome.ok log _ => some log

/-- The accounting invariant of an operation log for a request of `n`
items: `successful + failed = total_processed`, `total_processed` is the
request size, and `successful` equals the number of created ids. -/
def logAccounting (n : Nat) : BatchOutcome → Prop
  | BatchOutcome.bad400 => True
  | BatchOutcome.ok log _ =>
      log.successful + log.failed = log.total_processed ∧
      log.total_processed = n ∧
      log.successful = log.created_ids.length

/-- Number of bulk-update calls in an event trace. -/
def countUpdates : List Event → Nat
  | [] => 0
  | Event.bulkUpdate :: r => countUpdates r + 1
  | _ :: r => countUpdates r

/-- Number of `reference_error` entries in an error list. -/
def countRefErrors (es : List BError) : Nat :=
  (es.filter fun e => e.etype == ErrType.reference).length

/-- The `f"{user_id}:{title}"` combination a goal item registers in
`seen_combinations` when it passes the checks preceding that
registration (`none` when one of those checks rejects the item first). -/
def goalItemKey (it : GoalItem) : Option String :=
  match goalPreKey it with
  | Except.ok pre => some pre.combo
  | Except.error _ => none

/-- Fixture: a valid user batch item. -/
def uFix1 : UserItem :=
  { username := some "user001", password := some "Pass123456",
    confirm_password := some "Pass123456", first_name := some "Anna",
    last_name := some "Smith", role := some "user" }

/-- Fixture: a second valid user batch item. -/
def uFix2 : UserItem := { uFix1 with username := some "user002" }

/-- Fixture: a third valid user batch item. -/
def uFix3 : UserItem := { uFix1 with username := some "user003" }

/-- Fixture: a database snapshot holding user 1 and category 1. -/
def gFixDb : Db := { userIds := [1], categoryIds := [1] }

/-- Fixture: a fully valid goal batch item for user 1, category 1. -/
def gFixFull : GoalItem :=
  { user_id := some (JVal.jint 1), title := some (JVal.jstr "T"),
    target_value := some (JVal.jint 5), deadline := some (JVal.jstr "2025-01-01"),
    category_id := some (JVal.jint 1) }

/-- Fixture: a goal item with the same (user_id, title) key as
`gFixFull` but missing its other required fields. -/
def gFixMissing : GoalItem :=
  { user_id := some (JVal.jint 1), title := some (JVal.jstr "T") }

/-- Fixture: a goal item referencing a user id that does not exist. -/
def gFixBadRef : GoalItem := { gFixFull with user_id := some (JVal.jint 999) }

theorem chunkGo_nil (bs fuel : Nat) : chunkGo bs ([] : List α) fuel = [] := by
  cases fuel <;> rfl

theorem chunkGo_cons (bs fuel : Nat) (x : α) (xs : List α) :
    chunkGo bs (x :: xs) (fuel + 1) =
      (x :: xs).take bs :: chunkGo bs ((x :: xs).drop bs) fuel := rfl

theorem chunkGo_join (bs : Nat) (hbs : 1 ≤ bs) :
    ∀ (fuel : Nat) (l : List α), l.length ≤ fuel → (chunkGo bs l fuel).flatten = l := by
  intro fuel
  induction fuel with
  | zero =>
    intro l h
    have hl : l = [] := List.eq_nil_of_length_eq_zero (Nat.le_zero.mp h)
    subst hl; rfl
  | succ n ih =>
    intro l h
    cases l with
    | nil => rfl
    | cons x xs =>
      rw [chunkGo_cons, List.flatten_cons, ih]
      · exact List.take_append_drop bs (x :: xs)
      · have hlen : ((x :: xs).drop bs).length = (x :: xs).length - bs :=
          List.length_drop bs (x :: xs)
        rw [hlen]
        omega

theorem chunkGo_length (bs : Nat) (hbs : 1 ≤ bs) :
    ∀ (fuel : Nat) (l : List α), l.length ≤ fuel →
      (chunkGo bs l fuel).length = (l.length + bs - 1) / bs := by
  intro fuel
  induction fuel with
  | zero =>
    intro l h
    have hl : l = [] := List.eq_nil_of_length_eq_zero (Nat.le_zero.mp h)
    subst hl
    have hz : (0 + bs - 1) / bs = 0 := Nat.div_eq_of_lt (by omega)
    simp only [chunkGo_nil, List.length_nil]
    omega
  | succ n ih =>
    intro l h
    cases l with
    | nil =>
      have hz : (0 + bs - 1) / bs = 0 := Nat.div_eq_of_lt (by omega)
      simp only [chunkGo_nil, List.length_nil]
      omega
    | cons x xs =>
      rw [chunkGo_cons, List.length_cons, ih]
      · rw [List.length_drop]
        have hm1 : 1 ≤ (x :: xs).length := by simp
        have hR : ((x :: xs).length + bs - 1) = ((x :: xs).length - 1) + bs := by omega
        rw [hR, Nat.add_div_right _ (by omega : 0 < bs)]
        rcases le_or_lt (x :: xs).length bs with hle | hlt
        · have h1 : (x :: xs).length - bs = 0 := by omega
          rw [h1]
          have h2 : (0 + bs - 1) / bs = 0 := Nat.div_eq_of_lt (by omega)
          have h3 : ((x :: xs).length - 1) / bs = 0 := Nat.div_eq_of_lt (by omega)
          omega
        · have h1 : (x :: xs).length - bs + bs - 1 = (x :: xs).length - 1 := by omega
          rw [h1]
      · rw [List.length_drop]
        omega

theorem chunkGo_mem_length (bs : Nat) :
    ∀ (fuel : Nat) (l : List α) (c : List α), c ∈ chunkGo bs l fuel → c.length ≤ bs := by
  intro fuel
  induction fuel with
  | zero =>
    intro l c hc
    cases l with
    | nil => simp [chunkGo_nil] at hc
    | cons x xs => simp [chunkGo] at hc
  | succ n ih =>
    intro l c hc
    cases l with
    | nil => simp [chunkGo_nil] at hc
    | cons x xs =>
      rw [chunkGo_cons] at hc
      rcases List.mem_cons.mp hc with h | h
      · subst h
        simp only [List.length_take]
        omega
      · exact ih _ _ h

theorem chunkGo_get_length (bs : Nat) (hbs : 1 ≤ bs) :
    ∀ (fuel : Nat) (l : List α) (i : Nat), l.length ≤ fuel →
      i + 1 < (chunkGo bs l fuel).length →
      ((chunkGo bs l fuel).getD i []).length = bs := by
  intro fuel
  induction fuel with
  | zero =>
    intro l i h hi
    have hl : l = [] := List.eq_nil_of_length_eq_zero (Nat.le_zero.mp h)
    subst hl
    simp [chunkGo_nil] at hi
  | succ n ih =>
    intro l i h hi
    cases l with
    | nil => simp [chunkGo_nil] at hi
    | cons x xs =>
      rw [chunkGo_cons] at hi ⊢
      by_cases hrest : (x :: xs).drop bs = []
      · rw [hrest, chunkGo_nil] at hi
        simp at hi
      · have hlen : bs < (x :: xs).length := by
          have := List.length_drop bs (x :: xs)
          have hpos : 0 < ((x :: xs).drop bs).length := List.length_pos.mpr hrest
          omega
        cases i with
        | zero =>
          simp only [List.getD_cons_zero, List.length_take]
          omega
        | succ j =>
          simp only [List.getD_cons_succ]
          apply ih
          · rw [List.length_drop]
            omega
          · simpa using hi

theorem chunkList_get_length (l : List α) (bs : Nat) (hbs : 1 ≤ bs) (i : Nat)
    (hi : i + 1 < (chunkList l bs).length) :
    ((chunkList l bs).getD i []).length = bs :=
  chunkGo_get_length bs hbs l.length l i le_rfl hi

theorem chunkList_join (l : List α) (bs : Nat) (hbs : 1 ≤ bs) :
    (chunkList l bs).flatten = l :=
  chunkGo_join bs hbs l.length l le_rfl

theorem chunkList_length (l : List α) (bs : Nat) (hbs : 1 ≤ bs) :
    (chunkList l bs).length = (l.length + bs - 1) / bs :=
  chunkGo_length bs hbs l.length l le_rfl

theorem chunkList_mem_length (l : List α) (bs : Nat) (c : List α)
    (hc : c ∈ chunkList l bs) : c.length ≤ bs :=
  chunkGo_mem_length bs l.length l c hc

theorem chunkGo_mem_ne_nil (bs : Nat) (hbs : 1 ≤ bs) :
    ∀ (fuel : Nat) (l : List α) (c : List α), c ∈ chunkGo bs l fuel → c ≠ [] := by
  intro fuel
  induction fuel with
  | zero =>
    intro l c hc
    cases l with
    | nil => simp [chunkGo_nil] at hc
    | cons x xs => simp [chunkGo] at hc
  | succ n ih =>
    intro l c hc
    cases l with
    | nil => simp [chunkGo_nil] at hc
    | cons x xs =>
      rw [chunkGo_cons] at hc
      rcases List.mem_cons.mp hc with h | h
      · subst h
        cases bs with
        | zero => omega
        | succ m => simp [List.take]
      · exact ih _ _ h

theorem chunkList_mem_ne_nil (l : List α) (bs : Nat) (hbs : 1 ≤ bs) (c : List α)
    (hc : c ∈ chunkList l bs) : c ≠ [] :=
  chunkGo_mem_ne_nil bs hbs l.length l c hc

theorem processChunks_createdIds_len (oracle : Nat → Bool) :
    ∀ (cs : List (List α)) (idx nid : Nat),
      (processChunks oracle idx nid cs).createdIds.length =
        (processChunks oracle idx nid cs).successful := by
  intro cs
  induction cs with
  | nil => intro idx nid; rfl
  | cons c rest ih =>
    intro idx nid
    simp only [processChunks]
    split
    · simpa using ih (idx + 1) nid
    · split
      · rfl
      · simpa using ih (idx + 1) (nid + c.length)

theorem processChunks_successful_le (oracle : Nat → Bool) :
    ∀ (cs : List (List α)) (idx nid : Nat),
      (processChunks oracle idx nid cs).successful ≤ (cs.map List.length).sum := by
  intro cs
  induction cs with
  | nil => intro idx nid; exact Nat.le_refl 0
  | cons c rest ih =>
    intro idx nid
    simp only [processChunks]
    split
    · have := ih (idx + 1) nid
      simp only [List.map_cons, List.sum_cons]
      omega
    · split
      · simp
      · have := ih (idx + 1) (nid + c.length)
        simp only [List.map_cons, List.sum_cons]
        omega

theorem processChunks_not_aborted_successful (oracle : Nat → Bool) :
    ∀ (cs : List (List α)) (idx nid : Nat),
      (processChunks oracle idx nid cs).aborted = false →
      (processChunks oracle idx nid cs).successful = (cs.map List.length).sum := by
  intro cs
  induction cs with
  | nil => intro idx nid _; rfl
  | cons c rest ih =>
    intro idx nid hab
    by_cases hc : c.isEmpty = true
    · simp only [processChunks, if_pos hc] at hab ⊢
      have hcl : c.length = 0 := by
        cases c with
        | nil => rfl
        | cons a l => simp at hc
      simp only [List.map_cons, List.sum_cons, hcl, Nat.zero_add]
      exact ih (idx + 1) nid hab
    · by_cases ho : oracle idx = true
      · simp only [processChunks, if_neg hc, if_pos ho] at hab
        exact absurd hab (by simp)
      · simp only [processChunks, if_neg hc, if_neg ho] at hab ⊢
        simp only [List.map_cons, List.sum_cons]
        have := ih (idx + 1) (nid + c.length) hab
        omega

theorem processChunks_noFail (oracle : Nat → Bool) (hor : ∀ i, oracle i = false) :
    ∀ (cs : List (List α)) (idx nid : Nat),
      (processChunks oracle idx nid cs).aborted = false ∧
      (processChunks oracle idx nid cs).batchesProcessed = cs.length ∧
      countWrites (processChunks oracle idx nid cs).trace =
        (cs.filter fun c => !c.isEmpty).length := by
  intro cs
  induction cs with
  | nil => intro idx nid; exact ⟨rfl, rfl, rfl⟩
  | cons c rest ih =>
    intro idx nid
    simp only [processChunks]
    split <;> rename_i hc
    · have := ih (idx + 1) nid
      simp only [List.filter_cons, hc]
      simp only [Bool.not_true]
      refine ⟨this.1, ?_, ?_⟩
      · simpa using this.2.1
      · simpa [countWrites] using this.2.2
    · rw [hor idx]
      simp only [if_neg Bool.false_ne_true]
      have := ih (idx + 1) (nid + c.length)
      simp only [List.filter_cons, hc]
      simp only [Bool.not_false]
      refine ⟨this.1, ?_, ?_⟩
      · simpa using this.2.1
      · simpa [countWrites] using this.2.2

theorem processChunks_wellBracketed (oracle : Nat → Bool) :
    ∀ (cs : List (List α)) (idx nid : Nat),
      wellBracketed (processChunks oracle idx nid cs).trace = true := by
  intro cs
  induction cs with
  | nil => intro idx nid; rfl
  | cons c rest ih =>
    intro idx nid
    simp only [processChunks]
    split
    · simpa [wellBracketed] using ih (idx + 1) nid
    · split
      · rfl
      · simpa [wellBracketed] using ih (idx + 1) (nid + c.length)

theorem chunkGo_flatten_le (bs : Nat) :
    ∀ (fuel : Nat) (l : List α), (chunkGo bs l fuel).flatten.length ≤ l.length := by
  intro fuel
  induction fuel with
  | zero =>
    intro l
    cases l with
    | nil => simp [chunkGo_nil]
    | cons x xs => simp [chunkGo]
  | succ n ih =>
    intro l
    cases l with
    | nil => simp [chunkGo_nil]
    | cons x xs =>
      rw [chunkGo_cons, List.flatten_cons, List.length_append, List.length_take]
      have := ih ((x :: xs).drop bs)
      rw [List.length_drop] at this
      omega

theorem filterMapIf_length (p : ι → Bool) (f : ι → β) (l : List ι) :
    (l.filterMap fun x => if p x then some (f x) else none).length =
      (l.filter p).length := by
  induction l with
  | nil => rfl
  | cons x xs ih =>
    cases hp : p x <;> simp [List.filterMap_cons, List.filter_cons, hp, ih]

theorem filter_split_length (p : ι → Bool) (l : List ι) :
    (l.filter p).length + (l.filter fun x => !(p x)).length = l.length := by
  induction l with
  | nil => rfl
  | cons x xs ih =>
    cases hp : p x <;> simp [List.filter_cons, hp] <;> omega

theorem filterMap_enumFrom_length (g : Nat × ι → Option β) (q : ι → Bool)
    (hg : ∀ n x, (g (n, x)).isSome = q x) :
    ∀ (n : Nat) (l : List ι),
      ((List.enumFrom n l).filterMap g).length = (l.filter q).length := by
  intro n l
  induction l generalizing n with
  | nil => rfl
  | cons x xs ih =>
    simp only [List.enumFrom, List.filterMap_cons, List.filter_cons]
    cases hgx : g (n, x) with
    | none =>
      have hq : q x = false := by rw [← hg n x, hgx]; rfl
      simp [hq, ih]
    | some b =>
      have hq : q x = true := by rw [← hg n x, hgx]; rfl
      simp [hq, ih]

theorem validationErrors_length (o : List (Option ε)) :
    (validationErrors o).length = (o.filter Option.isSome).length := by
  unfold validationErrors
  have h := filterMap_enumFrom_length
    (g := fun p : Nat × Option ε =>
      match p.2 with
      | some _ => some { idx := some p.1, etype := ErrType.validation }
      | none => (none : Option BError))
    (q := Option.isSome) (fun n x => by cases x <;> rfl) 0 o
  simpa [List.enum] using h

theorem zip_filter_snd_length (q : κ → Bool) :
    ∀ (items : List ι) (o : List κ), items.length = o.length →
      ((items.zip o).filter fun p => q p.2).length = (o.filter q).length := by
  intro items
  induction items with
  | nil =>
    intro o h
    have : o = [] := List.eq_nil_of_length_eq_zero h.symm
    subst this; rfl
  | cons x xs ih =>
    intro o h
    cases o with
    | nil => simp at h
    | cons y ys =>
      simp only [List.zip_cons_cons, List.filter_cons]
      cases hq : q y <;> simp [hq, ih ys (by simpa using h)]

theorem acceptedIdx_length (o : List (Option ε)) (items : List ι)
    (hlen : items.length = o.length) :
    (acceptedIdx o items).length = (o.filter Option.isNone).length := by
  unfold acceptedIdx
  have h := filterMap_enumFrom_length
    (g := fun p : Nat × (ι × Option ε) =>
      match p.2.2 with
      | none => some (p.1, p.2.1)
      | some _ => none)
    (q := fun x => x.2.isNone) (fun n x => by rcases x with ⟨it, oc⟩; cases oc <;> rfl) 0
    (items.zip o)
  rw [zip_filter_snd_length Option.isNone items o hlen] at h
  simpa [List.enum] using h

theorem option_filter_split (o : List (Option ε)) :
    (o.filter Option.isSome).length + (o.filter Option.isNone).length = o.length := by
  induction o with
  | nil => rfl
  | cons x xs ih => cases x <;> simp [List.filter_cons] <;> omega

theorem validateUsersGo_length (dbU : List String) :
    ∀ (seen : List String) (items : List UserItem),
      (validateUsersGo dbU seen items).length = items.length := by
  intro seen items
  induction items generalizing seen with
  | nil => rfl
  | cons it rest ih => simp [validateUsersGo, ih]

theorem validateCatsGo_length :
    ∀ (seen : List String) (items : List CatItem),
      (validateCatsGo seen items).length = items.length := by
  intro seen items
  induction items generalizing seen with
  | nil => rfl
  | cons it rest ih => simp [validateCatsGo, ih]

theorem validateGoalsGo_length (db : Db) :
    ∀ (seen : List String) (items : List GoalItem),
      (validateGoalsGo db seen items).length = items.length := by
  intro seen items
  induction items generalizing seen with
  | nil => rfl
  | cons it rest ih => simp [validateGoalsGo, ih]

theorem userCounts (db : Db) (items : List UserItem) :
    (validationErrors (validateUsers db items)).length +
      (acceptedIdx (validateUsers db items) items).length = items.length := by
  rw [validationErrors_length,
    acceptedIdx_length _ _ (by rw [validateUsers, validateUsersGo_length]),
    option_filter_split, validateUsers, validateUsersGo_length]

theorem catCounts (items : List CatItem) :
    (validationErrors (validateCats items)).length +
      (acceptedIdx (validateCats items) items).length = items.length := by
  rw [validationErrors_length,
    acceptedIdx_length _ _ (by rw [validateCats, validateCatsGo_length]),
    option_filter_split, validateCats, validateCatsGo_length]

theorem goalAccepted_length (db : Db) (items : List GoalItem) :
    (goalAccepted db items).length =
      ((validateGoalsGo db [] items).filter exceptOk).length := by
  unfold goalAccepted
  have h := filterMap_enumFrom_length
    (g := fun p : Nat × Except GoalVErr GoalProcessed =>
      match p.2 with
      | Except.ok g => some (p.1, g)
      | Except.error _ => none)
    (q := exceptOk) (fun n x => by cases x <;> rfl) 0
    (validateGoalsGo db [] items)
  simpa [List.enum] using h

theorem goalCounts (db : Db) (items : List GoalItem) :
    (validationErrors (goalOutcomes db items)).length +
      (goalAccepted db items).length = items.length := by
  rw [validationErrors_length, goalAccepted_length]
  unfold goalOutcomes
  rw [List.filter_map, List.length_map]
  have hcong : (validateGoalsGo db [] items).filter (fun r => (exceptErr r).isSome) =
      (validateGoalsGo db [] items).filter (fun r => !(exceptOk r)) := by
    apply List.filter_congr
    intro r _
    cases r <;> rfl
  rw [Function.comp_def, hcong, Nat.add_comm, filter_split_length,
    validateGoalsGo_length]

theorem effBatchSize_pos (b : Option Int) (bs : Nat)
    (h : effBatchSize b = some bs) : 1 ≤ bs := by
  cases b with
  | none =>
    simp only [effBatchSize] at h
    have h100 := Option.some.inj h
    omega
  | some v =>
    simp only [effBatchSize] at h
    split at h <;> rename_i hcond
    · exact absurd h (by simp)
    · have hv : ¬ v < 1 := fun hlt => hcond (by simp [hlt])
      have : v.toNat = bs := by injection h
      omega

theorem chunkSum_le (survivors : List σ) (bs : Nat) :
    ((chunkList survivors bs).map List.length).sum ≤ survivors.length := by
  rw [← List.length_flatten]
  exact chunkGo_flatten_le bs survivors.length survivors

theorem chunkSum_eq (survivors : List σ) (bs : Nat) (hbs : 1 ≤ bs) :
    ((chunkList survivors bs).map List.length).sum = survivors.length := by
  rw [← List.length_flatten, chunkList_join survivors bs hbs]

theorem runUsersValidated_accounting (db : Db) (oracle : Nat → Bool)
    (items : List UserItem) (bs : Nat) (hbs : 1 ≤ bs) :
    (runUsersValidated db oracle items bs).1.successful +
        (runUsersValidated db oracle items bs).1.failed = items.length ∧
    (runUsersValidated db oracle items bs).1.total_processed = items.length ∧
    (runUsersValidated db oracle items bs).1.successful =
        (runUsersValidated db oracle items bs).1.created_ids.length := by
  have hvacc := userCounts db items
  have hsplit := filter_split_length
    (fun p : Nat × UserItem => db.usernames.contains (userKey p.2))
    (acceptedIdx (validateUsers db items) items)
  have hdup := filterMapIf_length
    (fun p : Nat × UserItem => db.usernames.contains (userKey p.2))
    (fun p => ({ idx := some p.1, etype := ErrType.duplicate } : BError))
    (acceptedIdx (validateUsers db items) items)
  have hdup' : (userDupErrors db (acceptedIdx (validateUsers db items) items)).length =
      ((acceptedIdx (validateUsers db items) items).filter
        (fun p => db.usernames.contains (userKey p.2))).length := hdup
  have hsurv' : (userSurvivors db items).length =
      ((acceptedIdx (validateUsers db items) items).filter
        (fun p => !(db.usernames.contains (userKey p.2)))).length := rfl
  simp only [runUsersValidated]
  split <;> rename_i hacc
  · rw [List.isEmpty_iff] at hacc
    rw [hacc] at hvacc
    simp only [List.length_nil] at hvacc
    refine ⟨?_, rfl, rfl⟩
    show 0 + (validationErrors (validateUsers db items)).length = items.length
    omega
  · split <;> rename_i hsurv
    · rw [List.isEmpty_iff] at hsurv
      have h0 : (userSurvivors db items).length = 0 := by rw [hsurv]; rfl
      refine ⟨?_, rfl, rfl⟩
      show 0 + ((validationErrors (validateUsers db items)).length +
        (userDupErrors db (acceptedIdx (validateUsers db items) items)).length) = items.length
      omega
    · have hcid := processChunks_createdIds_len oracle
        (chunkList (userSurvivors db items) bs) 0 db.nextId
      have hle := processChunks_successful_le oracle
        (chunkList (userSurvivors db items) bs) 0 db.nextId
      have hsum_le := chunkSum_le (userSurvivors db items) bs
      simp only [finishLog]
      split <;> rename_i hab
      · refine ⟨?_, rfl, ?_⟩
        · show (processChunks oracle 0 db.nextId (chunkList (userSurvivors db items) bs)).successful +
            (items.length -
              (processChunks oracle 0 db.nextId (chunkList (userSurvivors db items) bs)).successful) =
            items.length
          omega
        · show (processChunks oracle 0 db.nextId (chunkList (userSurvivors db items) bs)).successful =
            (processChunks oracle 0 db.nextId (chunkList (userSurvivors db items) bs)).createdIds.length
          exact hcid.symm
      · rw [Bool.not_eq_true] at hab
        have hsum := processChunks_not_aborted_successful oracle
          (chunkList (userSurvivors db items) bs) 0 db.nextId hab
        have hjoin := chunkSum_eq (userSurvivors db items) bs hbs
        refine ⟨?_, rfl, ?_⟩
        · show (processChunks oracle 0 db.nextId (chunkList (userSurvivors db items) bs)).successful +
            ((validationErrors (validateUsers db items)).length +
              (userDupErrors db (acceptedIdx (validateUsers db items) items)).length) = items.length
          omega
        · show (processChunks oracle 0 db.nextId (chunkList (userSurvivors db items) bs)).successful =
            (processChunks oracle 0 db.nextId (chunkList (userSurvivors db items) bs)).createdIds.length
          exact hcid.symm

theorem catCounts_split (db : Db) (items : List CatItem) :
    (catDupErrors db (acceptedIdx (validateCats items) items)).length +
      (catSurvivors db items).length =
      (acceptedIdx (validateCats items) items).length := by
  have hsplit := filter_split_length
    (fun p : Nat × CatItem => db.categoryNames.contains (catKey p.2))
    (acceptedIdx (validateCats items) items)
  have hdup := filterMapIf_length
    (fun p : Nat × CatItem => db.categoryNames.contains (catKey p.2))
    (fun p => ({ idx := some p.1, etype := ErrType.duplicate } : BError))
    (acceptedIdx (validateCats items) items)
  unfold catDupErrors catSurvivors
  omega

theorem runCatsValidated_accounting (db : Db) (oracle : Nat → Bool)
    (items : List CatItem) (bs : Nat) (hbs : 1 ≤ bs) :
    (runCatsValidated db oracle items bs).1.successful +
        (runCatsValidated db oracle items bs).1.failed = items.length ∧
    (runCatsValidated db oracle items bs).1.total_processed = items.length ∧
    (runCatsValidated db oracle items bs).1.successful =
        (runCatsValidated db oracle items bs).1.created_ids.length := by
  have hvacc := catCounts items
  have hpart := catCounts_split db items
  simp only [runCatsValidated]
  split <;> rename_i hacc
  · rw [List.isEmpty_iff] at hacc
    rw [hacc] at hvacc
    simp only [List.length_nil] at hvacc
    refine ⟨?_, rfl, rfl⟩
    show 0 + (validationErrors (validateCats items)).length = items.length
    omega
  · split <;> rename_i hsurv
    · rw [List.isEmpty_iff] at hsurv
      have h0 : (catSurvivors db items).length = 0 := by rw [hsurv]; rfl
      refine ⟨?_, rfl, rfl⟩
      show 0 + ((validationErrors (validateCats items)).length +
        (catDupErrors db (acceptedIdx (validateCats items) items)).length) = items.length
      omega
    · have hcid := processChunks_createdIds_len oracle
        (chunkList (catSurvivors db items) bs) 0 db.nextId
      have hle := processChunks_successful_le oracle
        (chunkList (catSurvivors db items) bs) 0 db.nextId
      have hsum_le := chunkSum_le (catSurvivors db items) bs
      simp only [finishLog]
      split <;> rename_i hab
      · refine ⟨?_, rfl, ?_⟩
        · show (processChunks oracle 0 db.nextId (chunkList (catSurvivors db items) bs)).successful +
            (items.length -
              (processChunks oracle 0 db.nextId (chunkList (catSurvivors db items) bs)).successful) =
            items.length
          omega
        · show (processChunks oracle 0 db.nextId (chunkList (catSurvivors db items) bs)).successful =
            (processChunks oracle 0 db.nextId (chunkList (catSurvivors db items) bs)).createdIds.length
          exact hcid.symm
      · rw [Bool.not_eq_true] at hab
        have hsum := processChunks_not_aborted_successful oracle
          (chunkList (catSurvivors db items) bs) 0 db.nextId hab
        have hjoin := chunkSum_eq (catSurvivors db items) bs hbs
        refine ⟨?_, rfl, ?_⟩
        · show (processChunks oracle 0 db.nextId (chunkList (catSurvivors db items) bs)).successful +
            ((validationErrors (validateCats items)).length +
              (catDupErrors db (acceptedIdx (validateCats items) items)).length) = items.length
          omega
        · show (processChunks oracle 0 db.nextId (chunkList (catSurvivors db items) bs)).successful =
            (processChunks oracle 0 db.nextId (chunkList (catSurvivors db items) bs)).createdIds.length
          exact hcid.symm

theorem goalCounts_dup_split (db : Db) (items : List GoalItem) :
    (goalDupErrors db (goalAccepted db items)).length +
      (goalSurvivors db items).length = (goalAccepted db items).length := by
  have hsplit := filter_split_length
    (fun p : Nat × GoalProcessed => (dbGoalCombos db).contains p.2.combo)
    (goalAccepted db items)
  have hdup := filterMapIf_length
    (fun p : Nat × GoalProcessed => (dbGoalCombos db).contains p.2.combo)
    (fun p => ({ idx := some p.1, etype := ErrType.duplicate } : BError))
    (goalAccepted db items)
  unfold goalDupErrors goalSurvivors
  omega

theorem goalCounts_refUser_split (db : Db) (items : List GoalItem) :
    (goalRefUserErrors db (goalSurvivors db items)).length +
      (goalFil2 db items).length = (goalSurvivors db items).length := by
  have hsplit := filter_split_length
    (fun p : Nat × GoalProcessed => db.userIds.contains p.2.uid)
    (goalSurvivors db items)
  have href := filterMapIf_length
    (fun p : Nat × GoalProcessed => !(db.userIds.contains p.2.uid))
    (fun p => ({ idx := some p.1, etype := ErrType.reference } : BError))
    (goalSurvivors db items)
  unfold goalRefUserErrors goalFil2
  rw [href]
  omega

theorem goalCounts_refCat_split (db : Db) (items : List GoalItem) :
    (goalRefCatErrors db (goalFil2 db items)).length +
      (goalFil3 db items).length = (goalFil2 db items).length := by
  have hsplit := filter_split_length
    (fun p : Nat × GoalProcessed => db.categoryIds.contains p.2.cid)
    (goalFil2 db items)
  have href := filterMapIf_length
    (fun p : Nat × GoalProcessed => !(db.categoryIds.contains p.2.cid))
    (fun p => ({ idx := some p.1, etype := ErrType.reference } : BError))
    (goalFil2 db items)
  unfold goalRefCatErrors goalFil3
  rw [href]
  omega

theorem runGoalsValidated_accounting (db : Db) (oracle : Nat → Bool)
    (items : List GoalItem) (bs : Nat) (hbs : 1 ≤ bs) :
    (runGoalsValidated db oracle items bs).1.successful +
        (runGoalsValidated db oracle items bs).1.failed = items.length ∧
    (runGoalsValidated db oracle items bs).1.total_processed = items.length ∧
    (runGoalsValidated db oracle items bs).1.successful =
        (runGoalsValidated db oracle items bs).1.created_ids.length := by
  have hvacc := goalCounts db items
  have hdup := goalCounts_dup_split db items
  have hru := goalCounts_refUser_split db items
  have hrc := goalCounts_refCat_split db items
  simp only [runGoalsValidated]
  split <;> rename_i hacc
  · rw [List.isEmpty_iff] at hacc
    rw [hacc] at hvacc
    simp only [List.length_nil] at hvacc
    refine ⟨?_, rfl, rfl⟩
    show 0 + (validationErrors (goalOutcomes db items)).length = items.length
    omega
  · split <;> rename_i hsurv
    · rw [List.isEmpty_iff] at hsurv
      have h0 : (goalSurvivors db items).length = 0 := by rw [hsurv]; rfl
      refine ⟨?_, rfl, rfl⟩
      show 0 + ((validationErrors (goalOutcomes db items)).length +
        (goalDupErrors db (goalAccepted db items)).length) = items.length
      omega
    · split <;> rename_i hfil3
      · rw [List.isEmpty_iff] at hfil3
        have h0 : (goalFil3 db items).length = 0 := by rw [hfil3]; rfl
        refine ⟨?_, rfl, rfl⟩
        show 0 + ((validationErrors (goalOutcomes db items)).length +
          (goalDupErrors db (goalAccepted db items)).length +
          (goalRefUserErrors db (goalSurvivors db items)).length +
          (goalRefCatErrors db (goalFil2 db items)).length) = items.length
        omega
      · have hcid := processChunks_createdIds_len oracle
          (chunkList (goalFil3 db items) bs) 0 db.nextId
        have hle := processChunks_successful_le oracle
          (chunkList (goalFil3 db items) bs) 0 db.nextId
        have hsum_le := chunkSum_le (goalFil3 db items) bs
        simp only [finishLog]
        split <;> rename_i hab
        · refine ⟨?_, rfl, ?_⟩
          · show (processChunks oracle 0 db.nextId (chunkList (goalFil3 db items) bs)).successful +
              (items.length -
                (processChunks oracle 0 db.nextId (chunkList (goalFil3 db items) bs)).successful) =
              items.length
            omega
          · show (processChunks oracle 0 db.nextId (chunkList (goalFil3 db items) bs)).successful =
              (processChunks oracle 0 db.nextId (chunkList (goalFil3 db items) bs)).createdIds.length
            exact hcid.symm
        · rw [Bool.not_eq_true] at hab
          have hsum := processChunks_not_aborted_successful oracle
            (chunkList (goalFil3 db items) bs) 0 db.nextId hab
          have hjoin := chunkSum_eq (goalFil3 db items) bs hbs
          refine ⟨?_, rfl, ?_⟩
          · show (processChunks oracle 0 db.nextId (chunkList (goalFil3 db items) bs)).successful +
              ((validationErrors (goalOutcomes db items)).length +
                (goalDupErrors db (goalAccepted db items)).length +
                (goalRefUserErrors db (goalSurvivors db items)).length +
                (goalRefCatErrors db (goalFil2 db items)).length) = items.length
            omega
          · show (processChunks oracle 0 db.nextId (chunkList (goalFil3 db items) bs)).successful =
              (processChunks oracle 0 db.nextId (chunkList (goalFil3 db items) bs)).createdIds.length
            exact hcid.symm

theorem runUsersValidated_bracketed (db : Db) (oracle : Nat → Bool)
    (items : List UserItem) (bs : Nat) :
    wellBracketed (runUsersValidated db oracle items bs).2 = true := by
  simp only [runUsersValidated]
  split
  · rfl
  · split
    · rfl
    · exact processChunks_wellBracketed oracle _ 0 db.nextId

theorem runCatsValidated_bracketed (db : Db) (oracle : Nat → Bool)
    (items : List CatItem) (bs : Nat) :
    wellBracketed (runCatsValidated db oracle items bs).2 = true := by
  simp only [runCatsValidated]
  split
  · rfl
  · split
    · rfl
    · exact processChunks_wellBracketed oracle _ 0 db.nextId

theorem runGoalsValidated_bracketed (db : Db) (oracle : Nat → Bool)
    (items : List GoalItem) (bs : Nat) :
    wellBracketed (runGoalsValidated db oracle items bs).2 = true := by
  simp only [runGoalsValidated]
  split
  · rfl
  · split
    · rfl
    · split
      · rfl
      · exact processChunks_wellBracketed oracle _ 0 db.nextId

/-- C2: in every batch-import run (users, categories, goals), the
database event trace decomposes into per-chunk blocks in which the audit
trigger is disabled, the chunk's bulk write (if any) runs, and the
trigger is re-enabled — including when the bulk write raises
`IntegrityError` (the `finally` block) — so the trigger is never left
disabled once a chunk's processing has finished. -/
theorem c2_theorem (db : Db) (oracle : Nat → Bool) (ureq : UserBatchRequest)
    (creq : CatBatchRequest) (greq : GoalBatchRequest) :
    wellBracketed (traceOf (runBatchUsers db oracle ureq)) = true ∧
    wellBracketed (traceOf (runBatchCats db oracle creq)) = true ∧
    wellBracketed (traceOf (runBatchGoals db oracle greq)) = true := by
  refine ⟨?_, ?_, ?_⟩
  · rcases ureq with ⟨users, bS⟩
    cases users with
    | none => rfl
    | some items =>
      cases heff : effBatchSize bS with
      | none => simp [runBatchUsers, heff, traceOf, wellBracketed]
      | some bs =>
        by_cases hgate : (items.isEmpty || decide (items.length > 10000)) = true
        · simp [runBatchUsers, heff, hgate, traceOf, wellBracketed]
        · simpa [runBatchUsers, heff, hgate, traceOf] using
            runUsersValidated_bracketed db oracle items bs
  · rcases creq with ⟨cats, bS⟩
    cases cats with
    | none => rfl
    | some items =>
      cases heff : effBatchSize bS with
      | none => simp [runBatchCats, heff, traceOf, wellBracketed]
      | some bs =>
        by_cases hgate : (items.isEmpty || decide (items.length > 10000)) = true
        · simp [runBatchCats, heff, hgate, traceOf, wellBracketed]
        · simpa [runBatchCats, heff, hgate, traceOf] using
            runCatsValidated_bracketed db oracle items bs
  · rcases greq with ⟨goals, bS⟩
    cases goals with
    | none => rfl
    | some items =>
      cases heff : effBatchSize bS with
      | none => simp [runBatchGoals, heff, traceOf, wellBracketed]
      | some bs =>
        by_cases hgate : (items.isEmpty || decide (items.length > 10000)) = true
        · simp [runBatchGoals, heff, hgate, traceOf, wellBracketed]
        · simpa [runBatchGoals, heff, hgate, traceOf] using
            runGoalsValidated_bracketed db oracle items bs

/-- C3: every batch-import response (users, categories, goals) satisfies
the accounting invariant: `successful + failed = total_processed`,
`total_processed` is the number of items in the request, and
`successful` equals the length of `created_ids` — on every path,
including validation failures, duplicate rejections, reference errors,
`IntegrityError` during `bulk_create` (any oracle), and the outer
critical-error handler. -/
theorem c3_theorem (db : Db) (oracle : Nat → Bool) (ureq : UserBatchRequest)
    (creq : CatBatchRequest) (greq : GoalBatchRequest) :
    logAccounting ((ureq.users.getD []).length) (runBatchUsers db oracle ureq) ∧
    logAccounting ((creq.categories.getD []).length) (runBatchCats db oracle creq) ∧
    logAccounting ((greq.goals.getD []).length) (runBatchGoals db oracle greq) := by
  refine ⟨?_, ?_, ?_⟩
  · rcases ureq with ⟨users, bS⟩
    cases users with
    | none => exact trivial
    | some items =>
      cases heff : effBatchSize bS with
      | none => simp [runBatchUsers, heff, logAccounting]
      | some bs =>
        by_cases hgate : (items.isEmpty || decide (items.length > 10000)) = true
        · simp [runBatchUsers, heff, hgate, logAccounting]
        · have hbs := effBatchSize_pos bS bs heff
          have hacc := runUsersValidated_accounting db oracle items bs hbs
          have hrun : runBatchUsers db oracle { users := some items, batch_size := bS } =
              BatchOutcome.ok (runUsersValidated db oracle items bs).1
                (runUsersValidated db oracle items bs).2 := by
            simp [runBatchUsers, heff, hgate]
          rw [hrun]
          simp only [logAccounting, Option.getD]
          exact ⟨by omega, hacc.2.1, hacc.2.2⟩
  · rcases creq with ⟨cats, bS⟩
    cases cats with
    | none => exact trivial
    | some items =>
      cases heff : effBatchSize bS with
      | none => simp [runBatchCats, heff, logAccounting]
      | some bs =>
        by_cases hgate : (items.isEmpty || decide (items.length > 10000)) = true
        · simp [runBatchCats, heff, hgate, logAccounting]
        · have hbs := effBatchSize_pos bS bs heff
          have hacc := runCatsValidated_accounting db oracle items bs hbs
          have hrun : runBatchCats db oracle { categories := some items, batch_size := bS } =
              BatchOutcome.ok (runCatsValidated db oracle items bs).1
                (runCatsValidated db oracle items bs).2 := by
            simp [runBatchCats, heff, hgate]
          rw [hrun]
          simp only [logAccounting, Option.getD]
          exact ⟨by omega, hacc.2.1, hacc.2.2⟩
  · rcases greq with ⟨goals, bS⟩
    cases goals with
    | none => exact trivial
    | some items =>
      cases heff : effBatchSize bS with
      | none => simp [runBatchGoals, heff, logAccounting]
      | some bs =>
        by_cases hgate : (items.isEmpty || decide (items.length > 10000)) = true
        · simp [runBatchGoals, heff, hgate, logAccounting]
        · have hbs := effBatchSize_pos bS bs heff
          have hacc := runGoalsValidated_accounting db oracle items bs hbs
          have hrun : runBatchGoals db oracle { goals := some items, batch_size := bS } =
              BatchOutcome.ok (runGoalsValidated db oracle items bs).1
                (runGoalsValidated db oracle items bs).2 := by
            simp [runBatchGoals, heff, hgate]
          rw [hrun]
          simp only [logAccounting, Option.getD]
          exact ⟨by omega, hacc.2.1, hacc.2.2⟩

theorem rankFrom_length (n : Nat) (l : List α) : (rankFrom n l).length = l.length := by
  induction l generalizing n with
  | nil => rfl
  | cons x xs ih => simp [rankFrom, ih]

theorem rankFrom_get (n : Nat) (l : List α) (i : Nat)
    (h : i < (rankFrom n l).length) : ((rankFrom n l).get ⟨i, h⟩).2 = n + i := by
  induction l generalizing n i with
  | nil => simp [rankFrom] at h
  | cons x xs ih =>
    cases i with
    | zero => rfl
    | succ j =>
      have hj : j < (rankFrom (n + 1) xs).length := by
        simpa [rankFrom] using h
      have := ih (n + 1) j hj
      simpa [rankFrom, Nat.add_assoc, Nat.add_comm 1 j] using this

theorem rankFrom_mem_fst (n : Nat) (l : List α) (p : α × Nat)
    (hp : p ∈ rankFrom n l) : p.1 ∈ l := by
  induction l generalizing n with
  | nil => simp [rankFrom] at hp
  | cons x xs ih =>
    rcases List.mem_cons.mp hp with h | h
    · subst h; exact List.mem_cons_self _ _
    · exact List.mem_cons_of_mem _ (ih (n + 1) h)

theorem rankFrom_pairwise {R : α → α → Prop} {l : List α}
    (h : l.Pairwise R) (n : Nat) :
    (rankFrom n l).Pairwise fun a b => R a.1 b.1 := by
  induction l generalizing n with
  | nil => exact List.Pairwise.nil
  | cons x xs ih =>
    rcases List.pairwise_cons.mp h with ⟨hx, hxs⟩
    refine List.pairwise_cons.mpr ⟨?_, ih hxs (n + 1)⟩
    intro p hp
    exact hx p.1 (rankFrom_mem_fst (n + 1) xs p hp)

theorem perm_pairwise_asymm_eq {r : α → α → Prop}
    (hasym : ∀ a b, r a b → ¬ r b a) :
    ∀ (l₁ l₂ : List α), l₁.Perm l₂ → l₁.Pairwise r → l₂.Pairwise r → l₁ = l₂ := by
  intro l₁
  induction l₁ with
  | nil =>
    intro l₂ hp _ _
    exact (hp.symm.eq_nil).symm
  | cons x xs ih =>
    intro l₂ hp h1 h2
    cases l₂ with
    | nil => exact absurd hp.eq_nil (by simp)
    | cons y ys =>
      rcases List.pairwise_cons.mp h1 with ⟨hx, hxs⟩
      rcases List.pairwise_cons.mp h2 with ⟨hy, hys⟩
      have hxy : x = y := by
        by_contra hne
        have hxmem : x ∈ y :: ys := hp.mem_iff.mp (List.mem_cons_self _ _)
        have hxys : x ∈ ys := by
          rcases List.mem_cons.mp hxmem with h | h
          · exact absurd h hne
          · exact h
        have hryx : r y x := hy x hxys
        have hymem : y ∈ x :: xs := hp.symm.mem_iff.mp (List.mem_cons_self _ _)
        have hyxs : y ∈ xs := by
          rcases List.mem_cons.mp hymem with h | h
          · exact absurd h.symm hne
          · exact h
        exact hasym x y (hx y hyxs) hryx
      subst hxy
      have : xs = ys := ih ys hp.cons_inv hxs hys
      rw [this]

/-- Symmetry of key inequality, used to transport pairwise distinctness
across permutations. -/
theorem keyNeSymm (key : α → K) :
    ∀ {a b : α}, key a ≠ key b → key b ≠ key a := fun h => h.symm

/-- C7 counterexample: the claim fails on `GetChallengesByPopularityView`.
The query ranks by `(participants_count DESC, goals_count DESC)` but its
outer `ORDER BY` is only `participants_count DESC`, so an output
permitted by the query semantics can return rows tied on
`participants_count` out of rank order: with rows (5,1) and (5,9), the
output [(5,1) ranked 2, (5,9) ranked 1] satisfies the outer ordering yet
its first row carries rank 2. -/
theorem c7_counterexample :
    ¬ ∀ (table : List ChallengeAnalyticsRow) (out : List (ChallengeAnalyticsRow × Nat)),
        challengePopularityValid table out → rankOrdered out := by
  intro h
  have hv : challengePopularityValid
      [⟨1, 5, 1⟩, ⟨2, 5, 9⟩]
      [(⟨1, 5, 1⟩, 2), (⟨2, 5, 9⟩, 1)] := by
    constructor
    · decide
    · decide
  have := h _ _ hv 0 (by decide)
  exact absurd this (by decide)

/-- C7 (amended): for `GetUsersByCompletedGoalsView`, whose outer
`ORDER BY` coincides with the `ROW_NUMBER()` ordering key
`(completed_goals DESC, avg_goal_progress DESC)`, every output the query
semantics permits lists rows in rank order — the i-th row carries rank
i+1 — whenever no two rows of the view share that ranking key. -/
theorem c7_amended (table : List UserAnalyticsRow)
    (out : List (UserAnalyticsRow × Nat))
    (hdist : table.Pairwise fun a b => ucgKey a ≠ ucgKey b)
    (hv : usersCompletedValid table out) : rankOrdered out := by
  obtain ⟨hperm, hsorted⟩ := hv
  have hssorted : (List.insertionSort (keyOrd ucgKey) table).Pairwise (keyOrd ucgKey) :=
    List.sorted_insertionSort _ table
  have hsperm : (List.insertionSort (keyOrd ucgKey) table).Perm table :=
    List.perm_insertionSort _ table
  have hne_s : (List.insertionSort (keyOrd ucgKey) table).Pairwise
      (fun a b => ucgKey a ≠ ucgKey b) :=
    (hsperm.pairwise_iff (keyNeSymm ucgKey)).mpr hdist
  have hstrict_s : (List.insertionSort (keyOrd ucgKey) table).Pairwise
      (fun a b => ucgKey b < ucgKey a) :=
    (hssorted.and hne_s).imp fun h => lt_of_le_of_ne h.1 (Ne.symm h.2)
  have hranked_strict : (usersCompletedRanked table).Pairwise
      (fun a b => ucgKey b.1 < ucgKey a.1) := rankFrom_pairwise hstrict_s 1
  have hne_ranked : (usersCompletedRanked table).Pairwise
      (fun a b => ucgKey a.1 ≠ ucgKey b.1) := rankFrom_pairwise hne_s 1
  have hne_out : out.Pairwise (fun a b => ucgKey a.1 ≠ ucgKey b.1) :=
    (hperm.pairwise_iff (fun h => h.symm)).mpr hne_ranked
  have hstrict_out : out.Pairwise (fun a b => ucgKey b.1 < ucgKey a.1) :=
    (hsorted.and hne_out).imp fun h => lt_of_le_of_ne h.1 (Ne.symm h.2)
  have heq : out = usersCompletedRanked table :=
    perm_pairwise_asymm_eq (fun _ _ h1 h2 => absurd h1 (lt_asymm h2))
      out (usersCompletedRanked table) hperm hstrict_out hranked_strict
  rw [heq]
  intro i h
  have := rankFrom_get 1 (List.insertionSort (keyOrd ucgKey) table) i h
  simpa [usersCompletedRanked, rankedRows, Nat.add_comm] using this

/-- C7 witness: a concrete table with distinct ranking keys and the
concrete ranked output, satisfying the amended theorem's hypotheses. -/
theorem c7_witness :
    rankOrdered [((⟨2, 5, 9⟩ : UserAnalyticsRow), 1), ((⟨1, 5, 1⟩ : UserAnalyticsRow), 2)] :=
  c7_amended [⟨1, 5, 1⟩, ⟨2, 5, 9⟩]
    [(⟨2, 5, 9⟩, 1), (⟨1, 5, 1⟩, 2)]
    (by decide) ⟨by decide, by decide⟩

/-- C8 (code_bug demonstration): for a request authenticating with an
existing token, `app.user_id` is set before the view handler runs (the
trace is `setConfig` then `viewHandler`), but `AuditUserMiddleware` is
absent from the `MIDDLEWARE` list of bdcw/settings.py, so no `resetVar`
event occurs and the session variable still holds the user id after the
response — it persists past the request, contradicting the claim. -/
theorem c8_code_bug :
    auditMiddlewareInstalled = false ∧
    (handleRequest { tokens := [("tok42", 42)] } "tok42" { appUserId := none }).2 =
      [ReqEvent.setConfig 42, ReqEvent.viewHandler] ∧
    (handleRequest { tokens := [("tok42", 42)] } "tok42" { appUserId := none }).1.appUserId =
      some 42 :=
  ⟨rfl, rfl, rfl⟩

/-- C9: for every INSERT/UPDATE/DELETE on an audited table whose audit
trigger is enabled, exactly one `audit_logs` row is appended, recording
the table name, the operation kind, the old and new values, and the
`changed_by` user derived from the session's `app.user_id`. -/
theorem c9_theorem (db : AuditedDb) (op : DbOp)
    (h : db.triggerEnabled op.table_name = true) :
    (applyAuditedOp db op).logs = db.logs ++
      [{ table_name := op.table_name, operation := op.operation,
         old_values := op.old_values, new_values := op.new_values,
         changed_by := db.appUserId }] := by
  unfold applyAuditedOp
  rw [if_pos h]

/-- C9 witness: a concrete INSERT on `users` with the trigger enabled and
`app.user_id = 7` appends exactly the corresponding log row. -/
theorem c9_witness :
    (applyAuditedOp { logs := [], triggerEnabled := fun _ => true, appUserId := some 7 }
        { table_name := "users", operation := DbOpKind.insertOp,
          old_values := none, new_values := some "row" }).logs =
      [{ table_name := "users", operation := DbOpKind.insertOp,
         old_values := none, new_values := some "row", changed_by := some 7 }] :=
  c9_theorem
    { logs := [], triggerEnabled := fun _ => true, appUserId := some 7 }
    { table_name := "users", operation := DbOpKind.insertOp,
      old_values := none, new_values := some "row" } rfl

theorem runUsersValidated_batch_size (db : Db) (oracle : Nat → Bool)
    (items : List UserItem) (bs : Nat) :
    (runUsersValidated db oracle items bs).1.batch_size = bs := by
  simp only [runUsersValidated, finishLog]
  split
  · rfl
  · split
    · rfl
    · split <;> rfl

/-- C10: a user batch request is rejected with HTTP 400, before any
per-item processing or database write, unless the `users` list is
present, non-empty and at most 10000 items long and `batch_size` (when
given) lies in 1..5000; when `batch_size` is omitted the request
proceeds with batch size 100. -/
theorem c10_theorem (db : Db) (oracle : Nat → Bool)
    (items : List UserItem) (bS : Option Int) :
    (runBatchUsers db oracle { users := none, batch_size := bS } = BatchOutcome.bad400) ∧
    (items = [] ∨ items.length > 10000 →
      runBatchUsers db oracle { users := some items, batch_size := bS } =
        BatchOutcome.bad400) ∧
    (∀ b : Int, b < 1 ∨ b > 5000 →
      runBatchUsers db oracle { users := some items, batch_size := some b } =
        BatchOutcome.bad400) ∧
    (items ≠ [] → items.length ≤ 10000 →
      ∃ log trace,
        runBatchUsers db oracle { users := some items, batch_size := none } =
          BatchOutcome.ok log trace ∧ log.batch_size = 100) := by
  refine ⟨?_, ?_, ?_, ?_⟩
  · cases bS with
    | none => rfl
    | some b =>
      unfold runBatchUsers
      rcases h : effBatchSize (some b) with _ | bs <;> simp
  · intro h
    unfold runBatchUsers
    have hcond : (items.isEmpty || decide (items.length > 10000)) = true := by
      rcases h with h | h
      · subst h; rfl
      · simp [h]
    rcases heff : effBatchSize bS with _ | bs <;> simp [hcond]
  · intro b hb
    have hb' : (b < 1 || b > 5000) = true := by
      rcases hb with h | h <;> simp [h]
    have heff : effBatchSize (some b) = none := by
      simp [effBatchSize, hb']
    unfold runBatchUsers
    rw [heff]
  · intro hne hlen
    have hcond : (items.isEmpty || decide (items.length > 10000)) = false := by
      have h1 : items.isEmpty = false := by
        cases items with
        | nil => exact absurd rfl hne
        | cons a l => rfl
      simp [h1]
      omega
    refine ⟨(runUsersValidated db oracle items 100).1,
            (runUsersValidated db oracle items 100).2, ?_, ?_⟩
    · unfold runBatchUsers effBatchSize
      simp [hcond]
    · exact runUsersValidated_batch_size db oracle items 100

/-- C10 witness: a singleton request with `batch_size` omitted proceeds
with batch size 100, and the gate conditions are discharged at concrete
inputs. -/
theorem c10_witness :
    ∃ log trace,
      runBatchUsers {} (fun _ => false)
          { users := some [{ username := some "user001" }], batch_size := none } =
        BatchOutcome.ok log trace ∧ log.batch_size = 100 :=
  (c10_theorem {} (fun _ => false) [{ username := some "user001" }] none).2.2.2
    (by decide) (by decide)

theorem chunkList_filter_nonempty (l : List σ) (bs : Nat) (hbs : 1 ≤ bs) :
    (chunkList l bs).filter (fun c => !c.isEmpty) = chunkList l bs := by
  apply List.filter_eq_self.mpr
  intro c hc
  have hne := chunkList_mem_ne_nil l bs hbs c hc
  cases c with
  | nil => exact absurd rfl hne
  | cons a t => rfl

theorem runUsers_chunk_stats (db : Db) (oracle : Nat → Bool)
    (items : List UserItem) (bs : Nat) (hbs : 1 ≤ bs)
    (hor : ∀ i, oracle i = false) :
    (runUsersValidated db oracle items bs).1.batches_processed =
      (chunkList (userSurvivors db items) bs).length ∧
    countWrites (runUsersValidated db oracle items bs).2 =
      (chunkList (userSurvivors db items) bs).length := by
  have hnf := processChunks_noFail oracle hor
    (chunkList (userSurvivors db items) bs) 0 db.nextId
  simp only [runUsersValidated]
  split <;> rename_i hacc
  · rw [List.isEmpty_iff] at hacc
    have hsur : userSurvivors db items = [] := by
      unfold userSurvivors
      rw [hacc]
      rfl
    rw [hsur]
    exact ⟨rfl, rfl⟩
  · split <;> rename_i hsurv
    · rw [List.isEmpty_iff] at hsurv
      rw [hsurv]
      exact ⟨rfl, rfl⟩
    · simp only [finishLog]
      split <;> rename_i hab
      · rw [hnf.1] at hab
        exact absurd hab (by simp)
      · refine ⟨?_, ?_⟩
        · show (processChunks oracle 0 db.nextId
              (chunkList (userSurvivors db items) bs)).batchesProcessed =
            (chunkList (userSurvivors db items) bs).length
          exact hnf.2.1
        · show countWrites (processChunks oracle 0 db.nextId
              (chunkList (userSurvivors db items) bs)).trace =
            (chunkList (userSurvivors db items) bs).length
          rw [hnf.2.2, chunkList_filter_nonempty _ _ hbs]

theorem runGoals_chunk_stats (db : Db) (oracle : Nat → Bool)
    (items : List GoalItem) (bs : Nat) (hbs : 1 ≤ bs)
    (hor : ∀ i, oracle i = false) :
    (runGoalsValidated db oracle items bs).1.batches_processed =
      (chunkList (goalFil3 db items) bs).length ∧
    countWrites (runGoalsValidated db oracle items bs).2 =
      (chunkList (goalFil3 db items) bs).length := by
  have hnf := processChunks_noFail oracle hor
    (chunkList (goalFil3 db items) bs) 0 db.nextId
  simp only [runGoalsValidated]
  split <;> rename_i hacc
  · rw [List.isEmpty_iff] at hacc
    have hsur : goalFil3 db items = [] := by
      unfold goalFil3 goalFil2 goalSurvivors
      rw [hacc]
      rfl
    rw [hsur]
    exact ⟨rfl, rfl⟩
  · split <;> rename_i hsurv
    · rw [List.isEmpty_iff] at hsurv
      have hsur : goalFil3 db items = [] := by
        unfold goalFil3 goalFil2
        rw [hsurv]
        rfl
      rw [hsur]
      exact ⟨rfl, rfl⟩
    · split <;> rename_i hfil3
      · rw [List.isEmpty_iff] at hfil3
        rw [hfil3]
        exact ⟨rfl, rfl⟩
      · simp only [finishLog]
        split <;> rename_i hab
        · rw [hnf.1] at hab
          exact absurd hab (by simp)
        · refine ⟨?_, ?_⟩
          · show (processChunks oracle 0 db.nextId
                (chunkList (goalFil3 db items) bs)).batchesProcessed =
              (chunkList (goalFil3 db items) bs).length
            exact hnf.2.1
          · show countWrites (processChunks oracle 0 db.nextId
                (chunkList (goalFil3 db items) bs)).trace =
              (chunkList (goalFil3 db items) bs).length
            rw [hnf.2.2, chunkList_filter_nonempty _ _ hbs]

/-- C1: for a user or goal batch-import run with a positive batch size
and no database failure, the surviving entities are partitioned into
contiguous chunks — the chunks concatenate back to the survivor list,
every chunk has at most `batch_size` elements and is non-empty, and
every chunk except possibly the last has exactly `batch_size` elements —
one `bulk_create` call is issued per chunk, and the response's
`batches_processed` equals the number of chunks, which is
`⌈survivors / batch_size⌉`. -/
theorem c1_theorem (db : Db) (oracle : Nat → Bool) (uitems : List UserItem)
    (gitems : List GoalItem) (bs : Nat) (hbs : 1 ≤ bs)
    (hor : ∀ i, oracle i = false) :
    ((chunkList (userSurvivors db uitems) bs).flatten = userSurvivors db uitems ∧
     (∀ c ∈ chunkList (userSurvivors db uitems) bs, c.length ≤ bs ∧ c ≠ []) ∧
     (∀ i, i + 1 < (chunkList (userSurvivors db uitems) bs).length →
        ((chunkList (userSurvivors db uitems) bs).getD i []).length = bs) ∧
     (runUsersValidated db oracle uitems bs).1.batches_processed =
        ((userSurvivors db uitems).length + bs - 1) / bs ∧
     countWrites (runUsersValidated db oracle uitems bs).2 =
        (chunkList (userSurvivors db uitems) bs).length) ∧
    ((chunkList (goalFil3 db gitems) bs).flatten = goalFil3 db gitems ∧
     (∀ c ∈ chunkList (goalFil3 db gitems) bs, c.length ≤ bs ∧ c ≠ []) ∧
     (∀ i, i + 1 < (chunkList (goalFil3 db gitems) bs).length →
        ((chunkList (goalFil3 db gitems) bs).getD i []).length = bs) ∧
     (runGoalsValidated db oracle gitems bs).1.batches_processed =
        ((goalFil3 db gitems).length + bs - 1) / bs ∧
     countWrites (runGoalsValidated db oracle gitems bs).2 =
        (chunkList (goalFil3 db gitems) bs).length) := by
  have hu := runUsers_chunk_stats db oracle uitems bs hbs hor
  have hg := runGoals_chunk_stats db oracle gitems bs hbs hor
  refine ⟨⟨chunkList_join _ bs hbs, ?_, ?_, ?_, hu.2⟩,
          ⟨chunkList_join _ bs hbs, ?_, ?_, ?_, hg.2⟩⟩
  · intro c hc
    exact ⟨chunkList_mem_length _ bs c hc, chunkList_mem_ne_nil _ bs hbs c hc⟩
  · intro i hi
    exact chunkList_get_length _ bs hbs i hi
  · rw [hu.1, chunkList_length _ bs hbs]
  · intro c hc
    exact ⟨chunkList_mem_length _ bs c hc, chunkList_mem_ne_nil _ bs hbs c hc⟩
  · intro i hi
    exact chunkList_get_length _ bs hbs i hi
  · rw [hg.1, chunkList_length _ bs hbs]

/-- C1 witness: three valid users with batch size 2 yield two chunks and
`batches_processed = 2`; the hypotheses of the theorem are discharged at
this concrete input. -/
theorem c1_witness :
    (runUsersValidated {} (fun _ => false) [uFix1, uFix2, uFix3] 2).1.batches_processed = 2 := by
  have h := c1_theorem {} (fun _ => false) [uFix1, uFix2, uFix3] [] 2
    (by decide) (fun i => rfl)
  rw [h.1.2.2.2.1]
  decide

theorem processChunks_no_updates (oracle : Nat → Bool) :
    ∀ (cs : List (List α)) (idx nid : Nat),
      countUpdates (processChunks oracle idx nid cs).trace = 0 := by
  intro cs
  induction cs with
  | nil => intro idx nid; rfl
  | cons c rest ih =>
    intro idx nid
    simp only [processChunks]
    split
    · simpa [countUpdates] using ih (idx + 1) nid
    · split
      · rfl
      · simpa [countUpdates] using ih (idx + 1) (nid + c.length)

theorem runUsersValidated_no_updates (db : Db) (oracle : Nat → Bool)
    (items : List UserItem) (bs : Nat) :
    countUpdates (runUsersValidated db oracle items bs).2 = 0 := by
  simp only [runUsersValidated]
  split
  · rfl
  · split
    · rfl
    · exact processChunks_no_updates oracle _ 0 db.nextId

theorem runCatsValidated_no_updates (db : Db) (oracle : Nat → Bool)
    (items : List CatItem) (bs : Nat) :
    countUpdates (runCatsValidated db oracle items bs).2 = 0 := by
  simp only [runCatsValidated]
  split
  · rfl
  · split
    · rfl
    · exact processChunks_no_updates oracle _ 0 db.nextId

theorem runGoalsValidated_no_updates (db : Db) (oracle : Nat → Bool)
    (items : List GoalItem) (bs : Nat) :
    countUpdates (runGoalsValidated db oracle items bs).2 = 0 := by
  simp only [runGoalsValidated]
  split
  · rfl
  · split
    · rfl
    · split
      · rfl
      · exact processChunks_no_updates oracle _ 0 db.nextId

/-- C6 counterexample: a user batch request whose single item matches an
existing database row.  The claim says updates of existing rows go
through `bulk_update`; the code instead rejects the item (here already
during validation, via `validate_username`'s existence check) and
performs no database write at all — the response records one failure and
the event trace is empty. -/
theorem c6_counterexample :
    runBatchUsers { usernames := ["user001"] } (fun _ => false)
        { users := some [uFix1], batch_size := none } =
      BatchOutcome.ok
        { total_processed := 1, successful := 0, failed := 1,
          errors := [{ idx := some 0, etype := ErrType.validation }],
          created_ids := [], batches_processed := 0, batch_size := 100 }
        [] := by
  decide

/-- C6 (amended): each modelled batch-import endpoint (users, categories,
goals) performs only bulk creation, in fixed-size chunks via
`bulk_create`; items whose uniqueness key matches an existing row are
rejected as failures rather than updated, and no request ever issues a
`bulk_update` — every run's event trace contains zero update events. -/
theorem c6_amended (db : Db) (oracle : Nat → Bool) (ureq : UserBatchRequest)
    (creq : CatBatchRequest) (greq : GoalBatchRequest) :
    countUpdates (traceOf (runBatchUsers db oracle ureq)) = 0 ∧
    countUpdates (traceOf (runBatchCats db oracle creq)) = 0 ∧
    countUpdates (traceOf (runBatchGoals db oracle greq)) = 0 := by
  refine ⟨?_, ?_, ?_⟩
  · rcases ureq with ⟨users, bS⟩
    cases users with
    | none => rfl
    | some items =>
      cases heff : effBatchSize bS with
      | none => simp [runBatchUsers, heff, traceOf, countUpdates]
      | some bs =>
        by_cases hgate : (items.isEmpty || decide (items.length > 10000)) = true
        · simp [runBatchUsers, heff, hgate, traceOf, countUpdates]
        · simpa [runBatchUsers, heff, hgate, traceOf] using
            runUsersValidated_no_updates db oracle items bs
  · rcases creq with ⟨cats, bS⟩
    cases cats with
    | none => rfl
    | some items =>
      cases heff : effBatchSize bS with
      | none => simp [runBatchCats, heff, traceOf, countUpdates]
      | some bs =>
        by_cases hgate : (items.isEmpty || decide (items.length > 10000)) = true
        · simp [runBatchCats, heff, hgate, traceOf, countUpdates]
        · simpa [runBatchCats, heff, hgate, traceOf] using
            runCatsValidated_no_updates db oracle items bs
  · rcases greq with ⟨goals, bS⟩
    cases goals with
    | none => rfl
    | some items =>
      cases heff : effBatchSize bS with
      | none => simp [runBatchGoals, heff, traceOf, countUpdates]
      | some bs =>
        by_cases hgate : (items.isEmpty || decide (items.length > 10000)) = true
        · simp [runBatchGoals, heff, hgate, traceOf, countUpdates]
        · simpa [runBatchGoals, heff, hgate, traceOf] using
            runGoalsValidated_no_updates db oracle items bs

theorem goalPostKey_ok (db : Db) (it : GoalItem) (pre g : GoalProcessed)
    (h : goalPostKey db it pre = Except.ok g) :
    g = pre ∧ db.userIds.contains pre.uid = true ∧
      db.categoryIds.contains pre.cid = true := by
  unfold goalPostKey at h
  split at h <;> rename_i hu
  · simp at h
  · split at h <;> rename_i hc
    · simp at h
    · try dsimp only at h
      split at h
      · simp at h
      · try dsimp only at h
        split at h
        · simp at h
        · try dsimp only at h
          split at h
          · simp at h
          · try dsimp only at h
            split at h
            · simp at h
            · try dsimp only at h
              split at h
              · simp at h
              · refine ⟨(Except.ok.inj h).symm, ?_, ?_⟩
                · simpa using hu
                · simpa using hc

theorem processGoalItem_ok_refs (db : Db) (seen : List String) (it : GoalItem)
    (g : GoalProcessed) (h : (processGoalItem db seen it).2 = Except.ok g) :
    db.userIds.contains g.uid = true ∧ db.categoryIds.contains g.cid = true := by
  rcases hp : processGoalItem db seen it with ⟨s1, r⟩
  rw [hp] at h
  have hr : r = Except.ok g := h
  subst hr
  unfold processGoalItem at hp
  split at hp <;> rename_i hpre
  · simp at hp
  · split at hp
    · simp at hp
    · have h2 : goalPostKey db it _ = Except.ok g := congrArg Prod.snd hp
      obtain ⟨hg, hu, hc⟩ := goalPostKey_ok db it _ g h2
      rw [hg]
      exact ⟨hu, hc⟩

theorem validateGoalsGo_ok_refs (db : Db) :
    ∀ (items : List GoalItem) (seen : List String) (g : GoalProcessed),
      Except.ok g ∈ validateGoalsGo db seen items →
      db.userIds.contains g.uid = true ∧ db.categoryIds.contains g.cid = true := by
  intro items
  induction items with
  | nil => intro seen g h; simp [validateGoalsGo] at h
  | cons it rest ih =>
    intro seen g h
    simp only [validateGoalsGo] at h
    rcases List.mem_cons.mp h with h | h
    · exact processGoalItem_ok_refs db seen it g h.symm
    · exact ih _ g h

theorem goalAccepted_refs (db : Db) (items : List GoalItem)
    (p : Nat × GoalProcessed) (hp : p ∈ goalAccepted db items) :
    db.userIds.contains p.2.uid = true ∧ db.categoryIds.contains p.2.cid = true := by
  unfold goalAccepted at hp
  rcases List.mem_filterMap.mp hp with ⟨q, hq, hgq⟩
  rcases q with ⟨qi, r⟩
  rcases r with e | g
  · simp at hgq
  · have hp' : p = (qi, g) := by simpa using hgq.symm
    subst hp'
    obtain ⟨h0, hlt, hq2⟩ := List.mem_enumFrom (by simpa [List.enum] using hq)
    have hqi : qi < (validateGoalsGo db [] items).length := by simpa using hlt
    have hmem : Except.ok g ∈ validateGoalsGo db [] items := by
      have h4 : Except.ok g = (validateGoalsGo db [] items)[qi] := by
        simpa using hq2
      rw [h4]
      exact List.getElem_mem _
    exact validateGoalsGo_ok_refs db items [] g hmem

theorem goalAccepted_mem_outcome (db : Db) (items : List GoalItem)
    (p : Nat × GoalProcessed) (hp : p ∈ goalAccepted db items) :
    p.1 < items.length ∧
    exceptOk ((validateGoalsGo db [] items).getD p.1
      (Except.error GoalVErr.missingFields)) = true := by
  unfold goalAccepted at hp
  rcases List.mem_filterMap.mp hp with ⟨q, hq, hgq⟩
  rcases q with ⟨qi, r⟩
  rcases r with e | g
  · simp at hgq
  · have hp' : p = (qi, g) := by simpa using hgq.symm
    subst hp'
    obtain ⟨h0, hlt, hq2⟩ := List.mem_enumFrom (by simpa [List.enum] using hq)
    have hqi : qi < (validateGoalsGo db [] items).length := by simpa using hlt
    have hleni : qi < items.length := by
      rw [validateGoalsGo_length] at hqi
      exact hqi
    refine ⟨hleni, ?_⟩
    have h4 : Except.ok g = (validateGoalsGo db [] items)[qi] := by
      simpa using hq2
    have hgd : (validateGoalsGo db [] items).getD qi (Except.error GoalVErr.missingFields)
        = Except.ok g := by
      rw [List.getD_eq_getElem _ _ hqi]
      exact h4.symm
    show exceptOk ((validateGoalsGo db [] items).getD qi
      (Except.error GoalVErr.missingFields)) = true
    rw [hgd]
    rfl

theorem goalRefUserErrors_nil (db : Db) (items : List GoalItem) :
    goalRefUserErrors db (goalSurvivors db items) = [] := by
  unfold goalRefUserErrors
  rw [List.filterMap_eq_nil_iff]
  intro p hp
  have hacc : p ∈ goalAccepted db items := by
    unfold goalSurvivors at hp
    exact (List.mem_filter.mp hp).1
  have h := (goalAccepted_refs db items p hacc).1
  have hfalse : (!db.userIds.contains p.2.uid) = false := by rw [h]; rfl
  rw [hfalse]
  rfl

theorem goalRefCatErrors_nil (db : Db) (items : List GoalItem) :
    goalRefCatErrors db (goalFil2 db items) = [] := by
  unfold goalRefCatErrors
  rw [List.filterMap_eq_nil_iff]
  intro p hp
  have hs : p ∈ goalSurvivors db items := by
    unfold goalFil2 at hp
    exact (List.mem_filter.mp hp).1
  have hacc : p ∈ goalAccepted db items := by
    unfold goalSurvivors at hs
    exact (List.mem_filter.mp hs).1
  have h := (goalAccepted_refs db items p hacc).2
  have hfalse : (!db.categoryIds.contains p.2.cid) = false := by rw [h]; rfl
  rw [hfalse]
  rfl

theorem countRefErrors_append (a b : List BError) :
    countRefErrors (a ++ b) = countRefErrors a + countRefErrors b := by
  unfold countRefErrors
  rw [List.filter_append, List.length_append]

theorem countRefErrors_eq_zero (es : List BError)
    (h : ∀ e ∈ es, e.etype ≠ ErrType.reference) : countRefErrors es = 0 := by
  unfold countRefErrors
  rw [List.length_eq_zero, List.filter_eq_nil_iff]
  intro e he
  simp [h e he]

theorem validationErrors_etype (o : List (Option ε)) :
    ∀ e ∈ validationErrors o, e.etype = ErrType.validation := by
  intro e he
  unfold validationErrors at he
  rcases List.mem_filterMap.mp he with ⟨q, _, hgq⟩
  rcases hq2 : q.2 with _ | x
  · rw [hq2] at hgq; simp at hgq
  · rw [hq2] at hgq
    have : e = { idx := some q.1, etype := ErrType.validation } := by simpa using hgq.symm
    rw [this]

theorem goalDupErrors_etype (db : Db) (acc : List (Nat × GoalProcessed)) :
    ∀ e ∈ goalDupErrors db acc, e.etype = ErrType.duplicate := by
  intro e he
  unfold goalDupErrors at he
  rcases List.mem_filterMap.mp he with ⟨x, _, hfx⟩
  split at hfx
  · have := Option.some.inj hfx
    rw [← this]
  · simp at hfx

theorem processChunks_errors_etype (oracle : Nat → Bool) :
    ∀ (cs : List (List α)) (idx nid : Nat) (e : BError),
      e ∈ (processChunks oracle idx nid cs).errors → e.etype = ErrType.integrity := by
  intro cs
  induction cs with
  | nil => intro idx nid e he; simp [processChunks] at he
  | cons c rest ih =>
    intro idx nid e he
    simp only [processChunks] at he
    split at he
    · exact ih (idx + 1) nid e he
    · split at he
      · have : e = { idx := none, etype := ErrType.integrity } := by simpa using he
        rw [this]
      · exact ih (idx + 1) (nid + c.length) e he

theorem runGoals_no_refErrors (db : Db) (oracle : Nat → Bool)
    (items : List GoalItem) (bs : Nat) :
    countRefErrors (runGoalsValidated db oracle items bs).1.errors = 0 := by
  have hv := countRefErrors_eq_zero (validationErrors (goalOutcomes db items))
    (fun e he => by rw [validationErrors_etype _ e he]; intro hcon; cases hcon)
  have hd := countRefErrors_eq_zero (goalDupErrors db (goalAccepted db items))
    (fun e he => by rw [goalDupErrors_etype db _ e he]; intro hcon; cases hcon)
  have hru := goalRefUserErrors_nil db items
  have hrc := goalRefCatErrors_nil db items
  have hcrit : countRefErrors [{ idx := none, etype := ErrType.critical }] = 0 := rfl
  have hnil : countRefErrors [] = 0 := rfl
  have hco := countRefErrors_eq_zero
    (processChunks oracle 0 db.nextId (chunkList (goalFil3 db items) bs)).errors
    (fun e he => by
      rw [processChunks_errors_etype oracle _ 0 db.nextId e he]
      intro hcon
      cases hcon)
  simp only [runGoalsValidated]
  split
  · exact hv
  · split
    · show countRefErrors (validationErrors (goalOutcomes db items) ++
        goalDupErrors db (goalAccepted db items)) = 0
      rw [countRefErrors_append, hv, hd]
    · split
      · show countRefErrors (validationErrors (goalOutcomes db items) ++
            goalDupErrors db (goalAccepted db items) ++
            goalRefUserErrors db (goalSurvivors db items) ++
            goalRefCatErrors db (goalFil2 db items)) = 0
        rw [hru, hrc]
        simp [countRefErrors_append, hv, hd, hnil]
      · simp only [finishLog]
        split
        · show countRefErrors ((validationErrors (goalOutcomes db items) ++
              goalDupErrors db (goalAccepted db items) ++
              goalRefUserErrors db (goalSurvivors db items) ++
              goalRefCatErrors db (goalFil2 db items)) ++
              (processChunks oracle 0 db.nextId (chunkList (goalFil3 db items) bs)).errors ++
              [{ idx := none, etype := ErrType.critical }]) = 0
          rw [hru, hrc]
          simp [countRefErrors_append, hv, hd, hco, hcrit, hnil]
        · show countRefErrors ((validationErrors (goalOutcomes db items) ++
              goalDupErrors db (goalAccepted db items) ++
              goalRefUserErrors db (goalSurvivors db items) ++
              goalRefCatErrors db (goalFil2 db items)) ++
              (processChunks oracle 0 db.nextId (chunkList (goalFil3 db items) bs)).errors) = 0
          rw [hru, hrc]
          simp [countRefErrors_append, hv, hd, hco, hnil]

theorem validationErrors_mem_of_getD (o : List (Option ε)) (j : Nat)
    (hj : j < o.length) (hne : o.getD j none ≠ none) :
    ({ idx := some j, etype := ErrType.validation } : BError) ∈ validationErrors o := by
  unfold validationErrors
  rcases ho : o.getD j none with _ | e
  · exact absurd ho hne
  · have hoj : o[j] = some e := by
      rw [← List.getD_eq_getElem o none hj]
      exact ho
    apply List.mem_filterMap.mpr
    have hjE : j < o.enum.length := by simpa using hj
    refine ⟨o.enum[j], List.getElem_mem hjE, ?_⟩
    rw [List.getElem_enum, hoj]

theorem goalOutcomes_getD (db : Db) (items : List GoalItem) (j : Nat)
    (hj : j < items.length) :
    (goalOutcomes db items).getD j none =
      exceptErr ((validateGoalsGo db [] items).getD j
        (Except.error GoalVErr.missingFields)) := by
  have hlen : j < (validateGoalsGo db [] items).length := by
    rw [validateGoalsGo_length]
    exact hj
  have hlen2 : j < (goalOutcomes db items).length := by
    unfold goalOutcomes
    rw [List.length_map]
    exact hlen
  rw [List.getD_eq_getElem _ _ hlen2, List.getD_eq_getElem _ _ hlen]
  unfold goalOutcomes
  rw [List.getElem_map]

theorem runGoalsValidated_vErr_mem (db : Db) (oracle : Nat → Bool)
    (items : List GoalItem) (bs : Nat) (e : BError)
    (he : e ∈ validationErrors (goalOutcomes db items)) :
    e ∈ (runGoalsValidated db oracle items bs).1.errors := by
  simp only [runGoalsValidated]
  split
  · exact he
  · split
    · exact List.mem_append_left _ he
    · split
      · exact List.mem_append_left _
          (List.mem_append_left _ (List.mem_append_left _ he))
      · simp only [finishLog]
        split
        · exact List.mem_append_left _ (List.mem_append_left _
            (List.mem_append_left _ (List.mem_append_left _
              (List.mem_append_left _ he))))
        · exact List.mem_append_left _ (List.mem_append_left _
            (List.mem_append_left _ (List.mem_append_left _ he)))

/-- C5 counterexample: a goal batch request whose single, otherwise
well-formed entry references user id 999, which does not exist.  The
claim says such an entry is recorded with type `reference_error`; the
code records it with type `validation_error` (the in-loop existence
check at goals/views.py lines 1358-1362 fires first), and the later
reference pass never runs. -/
theorem c5_counterexample :
    runBatchGoals gFixDb (fun _ => false)
        { goals := some [gFixBadRef], batch_size := none } =
      BatchOutcome.ok
        { total_processed := 1, successful := 0, failed := 1,
          errors := [{ idx := some 0, etype := ErrType.validation }],
          created_ids := [], batches_processed := 0, batch_size := 100 }
        [] := by
  decide

/-- C5 (amended): a goal entry whose `user_id` or `category_id` does not
match an existing row is rejected during per-item validation with an
error of type `validation_error` (not `reference_error`), it is counted
and no Goal is created for it; the later `reference_error` pass is dead
for an unchanged database — no response ever contains a
`reference_error` entry.  Entries whose references exist are unaffected
by this filtering. -/
theorem c5_amended (db : Db) (oracle : Nat → Bool) (items : List GoalItem)
    (bs : Nat) (j : Nat) :
    countRefErrors (runGoalsValidated db oracle items bs).1.errors = 0 ∧
    (j < items.length →
      ((validateGoalsGo db [] items).getD j (Except.error GoalVErr.missingFields) =
          Except.error GoalVErr.userMissing ∨
       (validateGoalsGo db [] items).getD j (Except.error GoalVErr.missingFields) =
          Except.error GoalVErr.categoryMissing) →
      ({ idx := some j, etype := ErrType.validation } : BError) ∈
          (runGoalsValidated db oracle items bs).1.errors ∧
      ∀ p ∈ goalFil3 db items, p.1 ≠ j) := by
  refine ⟨runGoals_no_refErrors db oracle items bs, ?_⟩
  intro hj herr
  have hlen2 : j < (goalOutcomes db items).length := by
    unfold goalOutcomes
    rw [List.length_map, validateGoalsGo_length]
    exact hj
  have hne : (goalOutcomes db items).getD j none ≠ none := by
    rw [goalOutcomes_getD db items j hj]
    rcases herr with h | h <;> rw [h] <;> simp [exceptErr]
  constructor
  · exact runGoalsValidated_vErr_mem db oracle items bs _
      (validationErrors_mem_of_getD (goalOutcomes db items) j hlen2 hne)
  · intro p hp
    have hs : p ∈ goalSurvivors db items := by
      have h2 : p ∈ goalFil2 db items := by
        unfold goalFil3 at hp
        exact (List.mem_filter.mp hp).1
      unfold goalFil2 at h2
      exact (List.mem_filter.mp h2).1
    have hacc : p ∈ goalAccepted db items := by
      unfold goalSurvivors at hs
      exact (List.mem_filter.mp hs).1
    have hok := (goalAccepted_mem_outcome db items p hacc).2
    intro hpj
    rw [hpj] at hok
    rcases herr with h | h <;> rw [h] at hok <;> exact absurd hok (by simp [exceptOk])

/-- C5 witness: at the concrete bad-reference input, the amended theorem
yields the recorded `validation_error` for item 0 and the absence of any
created goal for it. -/
theorem c5_witness :
    ({ idx := some 0, etype := ErrType.validation } : BError) ∈
        (runGoalsValidated gFixDb (fun _ => false) [gFixBadRef] 100).1.errors ∧
    ∀ p ∈ goalFil3 gFixDb [gFixBadRef], p.1 ≠ 0 :=
  (c5_amended gFixDb (fun _ => false) [gFixBadRef] 100 0).2
    (by decide) (Or.inl (by decide))

theorem processUserItem_key_mem (dbU : List String) (seen : List String) (it : UserItem) :
    userKey it ∈ (processUserItem dbU seen it).1 := by
  unfold processUserItem
  dsimp only
  split <;> rename_i h
  · simpa [userKey] using h
  · repeat' split
    all_goals exact List.mem_cons_self _ _

theorem processUserItem_seen_mono (dbU : List String) (seen : List String)
    (it : UserItem) (x : String) (hx : x ∈ seen) :
    x ∈ (processUserItem dbU seen it).1 := by
  unfold processUserItem
  dsimp only
  split
  · exact hx
  · repeat' split
    all_goals exact List.mem_cons_of_mem _ hx

theorem processUserItem_reject_of_seen (dbU : List String) (seen : List String)
    (it : UserItem) (h : userKey it ∈ seen) :
    (processUserItem dbU seen it).2 ≠ none := by
  have hc : seen.contains (it.username.getD "") = true := by simpa [userKey] using h
  unfold processUserItem
  dsimp only
  rw [if_pos hc]
  simp

theorem validateUsersGo_reject_of_seen (dbU : List String) :
    ∀ (items : List UserItem) (seen : List String) (j : Nat),
      j < items.length → userKey (items.getD j {}) ∈ seen →
      (validateUsersGo dbU seen items).getD j none ≠ none := by
  intro items
  induction items with
  | nil => intro seen j hj _; simp at hj
  | cons it rest ih =>
    intro seen j hj hmem
    cases j with
    | zero =>
      simp only [validateUsersGo]
      rw [List.getD_cons_zero]
      exact processUserItem_reject_of_seen dbU seen it (by simpa using hmem)
    | succ j' =>
      simp only [validateUsersGo]
      rw [List.getD_cons_succ]
      apply ih _ j' (by simpa using hj)
      exact processUserItem_seen_mono dbU seen it _ (by simpa using hmem)

theorem validateUsersGo_dup_second (dbU : List String) :
    ∀ (items : List UserItem) (seen : List String) (i j : Nat),
      i < j → j < items.length →
      userKey (items.getD i {}) = userKey (items.getD j {}) →
      (validateUsersGo dbU seen items).getD j none ≠ none := by
  intro items
  induction items with
  | nil => intro seen i j hij hj _; simp at hj
  | cons it rest ih =>
    intro seen i j hij hj hkey
    cases i with
    | zero =>
      cases j with
      | zero => omega
      | succ j' =>
        simp only [validateUsersGo]
        rw [List.getD_cons_succ]
        apply validateUsersGo_reject_of_seen dbU rest _ j' (by simpa using hj)
        have h1 : userKey (rest.getD j' ({} : UserItem)) = userKey it := by
          simpa using hkey.symm
        rw [h1]
        exact processUserItem_key_mem dbU seen it
    | succ i' =>
      cases j with
      | zero => omega
      | succ j' =>
        simp only [validateUsersGo]
        rw [List.getD_cons_succ]
        exact ih _ i' j' (by omega) (by simpa using hj) (by simpa using hkey)

theorem processCatItem_key_mem (seen : List String) (it : CatItem)
    (hk : catKey it ≠ "") : catKey it ∈ (processCatItem seen it).1 := by
  unfold processCatItem
  unfold catKey at hk ⊢
  rcases hname : it.name.getD (JVal.jstr "") with i | sVal | b | _
  · rw [hname] at hk; exact absurd rfl hk
  · rw [hname] at hk
    dsimp only
    split <;> rename_i hempty
    · exact absurd hempty hk
    · split <;> rename_i hdup
      · simpa using hdup
      · repeat' split
        all_goals exact List.mem_cons_self _ _
  · rw [hname] at hk; exact absurd rfl hk
  · rw [hname] at hk; exact absurd rfl hk

theorem processCatItem_seen_mono (seen : List String) (it : CatItem)
    (x : String) (hx : x ∈ seen) : x ∈ (processCatItem seen it).1 := by
  unfold processCatItem
  rcases it.name.getD (JVal.jstr "") with i | sVal | b | _
  · exact hx
  · dsimp only
    split
    · exact hx
    · split
      · exact hx
      · repeat' split
        all_goals exact List.mem_cons_of_mem _ hx
  · exact hx
  · exact hx

theorem processCatItem_reject_of_seen (seen : List String) (it : CatItem)
    (hmem : catKey it ∈ seen) :
    (processCatItem seen it).2 ≠ none := by
  unfold processCatItem
  unfold catKey at hmem
  rcases hname : it.name.getD (JVal.jstr "") with i | sVal | b | _
  · simp
  · rw [hname] at hmem
    dsimp only
    split <;> rename_i hempty
    · simp
    · have hc : seen.contains (pyStrip sVal) = true := by simpa using hmem
      rw [if_pos hc]
      simp
  · simp
  · simp

theorem processCatItem_reject_empty (seen : List String) (it : CatItem)
    (hk : catKey it = "") : (processCatItem seen it).2 ≠ none := by
  unfold processCatItem
  unfold catKey at hk
  rcases hname : it.name.getD (JVal.jstr "") with i | sVal | b | _
  · simp
  · rw [hname] at hk
    dsimp only
    rw [if_pos hk]
    simp
  · simp
  · simp

theorem validateCatsGo_reject_empty :
    ∀ (items : List CatItem) (seen : List String) (j : Nat),
      j < items.length → catKey (items.getD j {}) = "" →
      (validateCatsGo seen items).getD j none ≠ none := by
  intro items
  induction items with
  | nil => intro seen j hj _; simp at hj
  | cons it rest ih =>
    intro seen j hj hk
    cases j with
    | zero =>
      simp only [validateCatsGo]
      rw [List.getD_cons_zero]
      exact processCatItem_reject_empty seen it (by simpa using hk)
    | succ j' =>
      simp only [validateCatsGo]
      rw [List.getD_cons_succ]
      exact ih _ j' (by simpa using hj) (by simpa using hk)

theorem validateCatsGo_reject_of_seen :
    ∀ (items : List CatItem) (seen : List String) (j : Nat),
      j < items.length → catKey (items.getD j {}) ≠ "" →
      catKey (items.getD j {}) ∈ seen →
      (validateCatsGo seen items).getD j none ≠ none := by
  intro items
  induction items with
  | nil => intro seen j hj _ _; simp at hj
  | cons it rest ih =>
    intro seen j hj hk hmem
    cases j with
    | zero =>
      simp only [validateCatsGo]
      rw [List.getD_cons_zero]
      exact processCatItem_reject_of_seen seen it (by simpa using hmem)
    | succ j' =>
      simp only [validateCatsGo]
      rw [List.getD_cons_succ]
      apply ih _ j' (by simpa using hj) (by simpa using hk)
      exact processCatItem_seen_mono seen it _ (by simpa using hmem)

theorem validateCatsGo_dup_second :
    ∀ (items : List CatItem) (seen : List String) (i j : Nat),
      i < j → j < items.length →
      catKey (items.getD i {}) = catKey (items.getD j {}) →
      (validateCatsGo seen items).getD j none ≠ none := by
  intro items
  induction items with
  | nil => intro seen i j hij hj _; simp at hj
  | cons it rest ih =>
    intro seen i j hij hj hkey
    by_cases hk : catKey ((it :: rest).getD j ({} : CatItem)) = ""
    · exact validateCatsGo_reject_empty (it :: rest) seen j hj hk
    · cases i with
      | zero =>
        cases j with
        | zero => omega
        | succ j' =>
          simp only [validateCatsGo]
          rw [List.getD_cons_succ]
          apply validateCatsGo_reject_of_seen rest _ j' (by simpa using hj)
            (by simpa using hk)
          have h1 : catKey (rest.getD j' ({} : CatItem)) = catKey it := by
            simpa using hkey.symm
          rw [h1]
          apply processCatItem_key_mem seen it
          rw [← h1]
          simpa using hk
      | succ i' =>
        cases j with
        | zero => omega
        | succ j' =>
          simp only [validateCatsGo]
          rw [List.getD_cons_succ]
          exact ih _ i' j' (by omega) (by simpa using hj) (by simpa using hkey)

theorem processGoalItem_key_mem (db : Db) (seen : List String) (it : GoalItem)
    (pre : GoalProcessed) (hk : goalPreKey it = Except.ok pre) :
    pre.combo ∈ (processGoalItem db seen it).1 := by
  unfold processGoalItem
  rw [hk]
  dsimp only
  split <;> rename_i hdup
  · simpa using hdup
  · exact List.mem_cons_self _ _

theorem processGoalItem_seen_mono (db : Db) (seen : List String) (it : GoalItem)
    (x : String) (hx : x ∈ seen) : x ∈ (processGoalItem db seen it).1 := by
  unfold processGoalItem
  rcases goalPreKey it with e | pre
  · exact hx
  · dsimp only
    split
    · exact hx
    · exact List.mem_cons_of_mem _ hx

theorem processGoalItem_reject_of_seen (db : Db) (seen : List String) (it : GoalItem)
    (pre : GoalProcessed) (hk : goalPreKey it = Except.ok pre)
    (hmem : pre.combo ∈ seen) :
    exceptOk (processGoalItem db seen it).2 = false := by
  unfold processGoalItem
  rw [hk]
  dsimp only
  have hc : seen.contains pre.combo = true := by simpa using hmem
  rw [if_pos hc]
  rfl

theorem validateGoalsGo_reject_of_seen (db : Db) :
    ∀ (items : List GoalItem) (seen : List String) (j : Nat) (pre : GoalProcessed),
      j < items.length → goalPreKey (items.getD j {}) = Except.ok pre →
      pre.combo ∈ seen →
      exceptOk ((validateGoalsGo db seen items).getD j
        (Except.error GoalVErr.missingFields)) = false := by
  intro items
  induction items with
  | nil => intro seen j pre hj _ _; simp at hj
  | cons it rest ih =>
    intro seen j pre hj hk hmem
    cases j with
    | zero =>
      simp only [validateGoalsGo]
      rw [List.getD_cons_zero]
      exact processGoalItem_reject_of_seen db seen it pre (by simpa using hk) hmem
    | succ j' =>
      simp only [validateGoalsGo]
      rw [List.getD_cons_succ]
      apply ih _ j' pre (by simpa using hj) (by simpa using hk)
      exact processGoalItem_seen_mono db seen it _ hmem

theorem validateGoalsGo_dup_second (db : Db) :
    ∀ (items : List GoalItem) (seen : List String) (i j : Nat)
      (preI preJ : GoalProcessed),
      i < j → j < items.length →
      goalPreKey (items.getD i {}) = Except.ok preI →
      goalPreKey (items.getD j {}) = Except.ok preJ →
      preI.combo = preJ.combo →
      exceptOk ((validateGoalsGo db seen items).getD j
        (Except.error GoalVErr.missingFields)) = false := by
  intro items
  induction items with
  | nil => intro seen i j preI preJ hij hj _ _ _; simp at hj
  | cons it rest ih =>
    intro seen i j preI preJ hij hj hkI hkJ hcombo
    cases i with
    | zero =>
      cases j with
      | zero => omega
      | succ j' =>
        simp only [validateGoalsGo]
        rw [List.getD_cons_succ]
        apply validateGoalsGo_reject_of_seen db rest _ j' preJ (by simpa using hj)
          (by simpa using hkJ)
        rw [← hcombo]
        exact processGoalItem_key_mem db seen it preI (by simpa using hkI)
    | succ i' =>
      cases j with
      | zero => omega
      | succ j' =>
        simp only [validateGoalsGo]
        rw [List.getD_cons_succ]
        exact ih _ i' j' preI preJ (by omega) (by simpa using hj)
          (by simpa using hkI) (by simpa using hkJ) hcombo

theorem exceptErr_ne_none (r : Except ε γ) (h : exceptOk r = false) :
    exceptErr r ≠ none := by
  cases r with
  | error e => simp [exceptErr]
  | ok g => simp [exceptOk] at h

theorem acceptedIdx_mem_outcome (o : List (Option ε)) (items : List ι)
    (hlen : items.length = o.length)
    (p : Nat × ι) (hp : p ∈ acceptedIdx o items) :
    p.1 < o.length ∧ o.getD p.1 none = none := by
  unfold acceptedIdx at hp
  rcases List.mem_filterMap.mp hp with ⟨q, hq, hgq⟩
  rcases q with ⟨qi, itm, oc⟩
  rcases oc with _ | e
  · have hp' : p = (qi, itm) := by simpa using hgq.symm
    subst hp'
    obtain ⟨h0, hlt, hq2⟩ := List.mem_enumFrom (by simpa [List.enum] using hq)
    have hz : qi < (items.zip o).length := by simpa using hlt
    have hlo : qi < o.length := by
      rw [List.length_zip] at hz
      omega
    refine ⟨hlo, ?_⟩
    have h4 : (itm, (none : Option ε)) = (items.zip o)[qi] := by
      simpa using hq2
    have h5 := congrArg Prod.snd h4
    rw [List.getElem_zip] at h5
    rw [List.getD_eq_getElem _ _ hlo]
    exact h5.symm
  · simp at hgq

theorem runUsersValidated_vErr_mem (db : Db) (oracle : Nat → Bool)
    (items : List UserItem) (bs : Nat) (e : BError)
    (he : e ∈ validationErrors (validateUsers db items)) :
    e ∈ (runUsersValidated db oracle items bs).1.errors := by
  simp only [runUsersValidated]
  split
  · exact he
  · split
    · exact List.mem_append_left _ he
    · simp only [finishLog]
      split
      · exact List.mem_append_left _ (List.mem_append_left _ (List.mem_append_left _ he))
      · exact List.mem_append_left _ (List.mem_append_left _ he)

theorem runCatsValidated_vErr_mem (db : Db) (oracle : Nat → Bool)
    (items : List CatItem) (bs : Nat) (e : BError)
    (he : e ∈ validationErrors (validateCats items)) :
    e ∈ (runCatsValidated db oracle items bs).1.errors := by
  simp only [runCatsValidated]
  split
  · exact he
  · split
    · exact List.mem_append_left _ he
    · simp only [finishLog]
      split
      · exact List.mem_append_left _ (List.mem_append_left _ (List.mem_append_left _ he))
      · exact List.mem_append_left _ (List.mem_append_left _ he)

/-- C4 counterexample: a goal batch request with two items carrying the
same `(user_id, title)` uniqueness key `1:"T"`, where the first item is
missing its other required fields.  The claim says every occurrence after
the first is rejected and never written while the first continues; in the
code the first item fails the required-field check *before* the key is
registered in `seen_combinations` (goals/views.py lines 1313-1321 vs
1352), so the second occurrence is not treated as a duplicate: it is
validated, bulk-created (`created_ids = [1]`, one successful write) and
the only error is the validation error of item 0. -/
theorem c4_counterexample :
    runBatchGoals gFixDb (fun _ => false)
        { goals := some [gFixMissing, gFixFull], batch_size := none } =
      BatchOutcome.ok
        { total_processed := 2, successful := 1, failed := 1,
          errors := [{ idx := some 0, etype := ErrType.validation }],
          created_ids := [1], batches_processed := 1, batch_size := 100 }
        [Event.disableTrigger, Event.bulkCreate true, Event.enableTrigger] := by
  decide

/-- C4 (amended): when two items of a batch request carry the same
*registered* uniqueness key — for users any two items with equal
`username` keys (registration is unconditional), for categories any two
items with equal name keys, for goals two items that both pass the checks
preceding registration in `seen_combinations` and produce the same
`f"{user_id}:{title}"` combination — the later occurrence is rejected in
memory with a `validation_error`, the error for its index is in the
response, and its index is excluded from the list that is chunked and
bulk-created.  (If the earlier occurrence fails a check that precedes key
registration, its key is never registered and the later occurrence is not
rejected as a duplicate; see the goal counterexample.) -/
theorem c4_amended (db : Db) (oracle : Nat → Bool) (bs : Nat) :
    (∀ (items : List UserItem) (i j : Nat), i < j → j < items.length →
       userKey (items.getD i {}) = userKey (items.getD j {}) →
       (validateUsers db items).getD j none ≠ none ∧
       ({ idx := some j, etype := ErrType.validation } : BError) ∈
         (runUsersValidated db oracle items bs).1.errors ∧
       ∀ p ∈ userSurvivors db items, p.1 ≠ j) ∧
    (∀ (items : List CatItem) (i j : Nat), i < j → j < items.length →
       catKey (items.getD i {}) = catKey (items.getD j {}) →
       (validateCats items).getD j none ≠ none ∧
       ({ idx := some j, etype := ErrType.validation } : BError) ∈
         (runCatsValidated db oracle items bs).1.errors ∧
       ∀ p ∈ catSurvivors db items, p.1 ≠ j) ∧
    (∀ (items : List GoalItem) (i j : Nat) (preI preJ : GoalProcessed), i < j →
       j < items.length →
       goalPreKey (items.getD i {}) = Except.ok preI →
       goalPreKey (items.getD j {}) = Except.ok preJ →
       preI.combo = preJ.combo →
       exceptOk ((validateGoalsGo db [] items).getD j
         (Except.error GoalVErr.missingFields)) = false ∧
       ({ idx := some j, etype := ErrType.validation } : BError) ∈
         (runGoalsValidated db oracle items bs).1.errors ∧
       ∀ p ∈ goalFil3 db items, p.1 ≠ j) := by
  refine ⟨?_, ?_, ?_⟩
  · intro items i j hij hj hkey
    have hne : (validateUsers db items).getD j none ≠ none :=
      validateUsersGo_dup_second db.usernames items [] i j hij hj hkey
    have hjo : j < (validateUsers db items).length := by
      unfold validateUsers
      rw [validateUsersGo_length]
      exact hj
    refine ⟨hne, ?_, ?_⟩
    · exact runUsersValidated_vErr_mem db oracle items bs _
        (validationErrors_mem_of_getD (validateUsers db items) j hjo hne)
    · intro p hp
      have hacc : p ∈ acceptedIdx (validateUsers db items) items := by
        unfold userSurvivors at hp
        exact (List.mem_filter.mp hp).1
      have hout := (acceptedIdx_mem_outcome (validateUsers db items) items
        (by unfold validateUsers; rw [validateUsersGo_length]) p hacc).2
      intro hpj
      rw [hpj] at hout
      exact hne hout
  · intro items i j hij hj hkey
    have hne : (validateCats items).getD j none ≠ none :=
      validateCatsGo_dup_second items [] i j hij hj hkey
    have hjo : j < (validateCats items).length := by
      unfold validateCats
      rw [validateCatsGo_length]
      exact hj
    refine ⟨hne, ?_, ?_⟩
    · exact runCatsValidated_vErr_mem db oracle items bs _
        (validationErrors_mem_of_getD (validateCats items) j hjo hne)
    · intro p hp
      have hacc : p ∈ acceptedIdx (validateCats items) items := by
        unfold catSurvivors at hp
        exact (List.mem_filter.mp hp).1
      have hout := (acceptedIdx_mem_outcome (validateCats items) items
        (by unfold validateCats; rw [validateCatsGo_length]) p hacc).2
      intro hpj
      rw [hpj] at hout
      exact hne hout
  · intro items i j preI preJ hij hj hkI hkJ hcombo
    have hko : exceptOk ((validateGoalsGo db [] items).getD j
        (Except.error GoalVErr.missingFields)) = false :=
      validateGoalsGo_dup_second db items [] i j preI preJ hij hj hkI hkJ hcombo
    have hne : (goalOutcomes db items).getD j none ≠ none := by
      rw [goalOutcomes_getD db items j hj]
      exact exceptErr_ne_none _ hko
    have hjo : j < (goalOutcomes db items).length := by
      unfold goalOutcomes
      rw [List.length_map, validateGoalsGo_length]
      exact hj
    refine ⟨hko, ?_, ?_⟩
    · exact runGoalsValidated_vErr_mem db oracle items bs _
        (validationErrors_mem_of_getD (goalOutcomes db items) j hjo hne)
    · intro p hp
      have hs : p ∈ goalSurvivors db items := by
        have h2 : p ∈ goalFil2 db items := by
          unfold goalFil3 at hp
          exact (List.mem_filter.mp hp).1
        unfold goalFil2 at h2
        exact (List.mem_filter.mp h2).1
      have hacc : p ∈ goalAccepted db items := by
        unfold goalSurvivors at hs
        exact (List.mem_filter.mp hs).1
      have hok := (goalAccepted_mem_outcome db items p hacc).2
      intro hpj
      rw [hpj] at hok
      rw [hko] at hok
      cases hok

/-- C4 witness: two user items with the same username `user001`; the
amended theorem yields the rejection of index 1 and the recorded
`validation_error` for it. -/
theorem c4_witness :
    (validateUsers {} [uFix1, uFix1]).getD 1 none ≠ none ∧
    ({ idx := some 1, etype := ErrType.validation } : BError) ∈
      (runUsersValidated {} (fun _ => false) [uFix1, uFix1] 100).1.errors := by
  have h := (c4_amended {} (fun _ => false) 100).1 [uFix1, uFix1] 0 1
    (by decide) (by decide) rfl
  exact ⟨h.1, h.2.1⟩

end Bdcw
